import Mathlib

/-!
Very Simple Web Server: request parsing, path sanitisation, response framing

A shallow embedding of `handler/http_handler.go`, `utils/file_utils.go` and the
per-connection handler of `main.go`.

A Go `string` is modelled by the list of its characters (`Str`), a `[]byte`
read from disk by a list of bytes (`Bytes`).  Every separator the program
searches for (`"\r\n"`, `" "`, `": "`, `'/'`, `'.'`) is ASCII, so searching by
character and searching by byte agree.  Loops of the Go standard library that
are not structurally recursive carry an explicit iteration bound; running out
of it is reported as `none`, and the theorems show a result is always produced.
-/

namespace VSWS

/-- Go `string`, as the list of its characters. -/
abbrev Str := List Char

/-- Go `[]byte`. -/
abbrev Bytes := List UInt8

/-! ## `strings` -/

/-- Go `strings.HasPrefix(s, prefix)`. -/
def HasPrefix (s pre : Str) : Bool :=
  pre.isPrefixOf s

/-- Go `strings.TrimPrefix(s, prefix)`: `s` without the leading `prefix`, or `s`
itself when it does not start with it. -/
def TrimPrefix (s pre : Str) : Str :=
  if HasPrefix s pre then s.drop pre.length else s

/-- Go `strings.Index(s, substr)`: the position of the first occurrence of
`substr` in `s`; `none` stands for `-1`. -/
def Index : Str → Str → Option Nat
  | [], substr => if substr.isPrefixOf [] then some 0 else none
  | c :: t, substr =>
    if substr.isPrefixOf (c :: t) then some 0
    else (Index t substr).map (· + 1)

/-- The loop of `strings.Count` for a separator of two or more bytes:
`for { i := Index(s, substr); if i == -1 { return n }; n++; s = s[i+len(substr):] }`. -/
def countLoop (substr : Str) : Nat → Str → Nat → Option Nat
  | 0, _, _ => none
  | fuel + 1, s, n =>
    match Index s substr with
    | none => some n
    | some i => countLoop substr fuel (s.drop (i + substr.length)) (n + 1)

/-- Go `strings.Count(s, substr)`: the number of non-overlapping occurrences. -/
def Count (s substr : Str) : Option Nat :=
  match substr with
  | [] => some (s.length + 1)
  | [c] => some (s.count c)
  | _ => countLoop substr (s.length + 1) s 0

/-- The cutting loop of `strings.genSplit` (with `sepSave = 0`): at most
`n` cuts at the first occurrence of `sep`, then the rest as the last piece. -/
def splitLoop (sep : Str) : Nat → Str → List Str
  | 0, s => [s]
  | n + 1, s =>
    match Index s sep with
    | none => [s]
    | some m => s.take m :: splitLoop sep n (s.drop (m + sep.length))

/-- Go `strings.genSplit(s, sep, 0, n)` for `n > 0` and a non-empty `sep`, after
`n` has been resolved: `n` is clamped to `len(s)+1` and `n-1` cuts are made. -/
def genSplit (s sep : Str) (n : Nat) : List Str :=
  splitLoop sep (min n (s.length + 1) - 1) s

/-- Go `strings.Split(s, sep)`: `genSplit(s, sep, 0, -1)`, where a negative `n`
is replaced by `Count(s, sep) + 1`.  An empty `sep` explodes `s` into its
characters. -/
def Split (s sep : Str) : Option (List Str) :=
  if sep = [] then some (s.map fun c => [c])
  else do
    let k ← Count s sep
    some (genSplit s sep (k + 1))

/-- Go `strings.SplitN(s, sep, n)` for `n > 0` and a non-empty `sep`. -/
def SplitN (s sep : Str) (n : Nat) : List Str :=
  genSplit s sep n

/-! ## `path/filepath` (Unix: the separator is `'/'`, there is no volume name) -/

/-- The backward scan of the `..` case of `filepath.Clean`:
`for out.w > dotdot && !os.IsPathSeparator(out.index(out.w)) { out.w-- }`. -/
def backScan (buf : Str) (dotdot : Nat) : Nat → Nat
  | 0 => 0
  | w + 1 =>
    if w + 1 > dotdot ∧ buf.get? (w + 1) ≠ some '/' then backScan buf dotdot w
    else w + 1

/-- The `..` backtrack of `filepath.Clean`: `out.w--`, then the backward scan;
the buffer keeps its first `out.w` bytes. -/
def backtrack (out : Str) (dotdot : Nat) : Str :=
  out.take (backScan out dotdot (out.length - 1))

/-- The main loop of `filepath.Clean`, `for r < n { switch ... }`, over the
unread part `path[r:]`; `out` is the buffer written so far (`out.w` is its
length) and `dotdot` the index where `..` must stop. -/
def cleanLoop (rooted : Bool) : Nat → Str → Nat → Str → Option Str
  | _, out, _, [] => some out
  | 0, _, _, _ :: _ => none
  | fuel + 1, out, dotdot, c :: rest =>
    if c = '/' then
      -- empty path element
      cleanLoop rooted fuel out dotdot rest
    else if c = '.' ∧ (rest = [] ∨ rest.head? = some '/') then
      -- . element
      cleanLoop rooted fuel out dotdot rest
    else if c = '.' ∧ rest.head? = some '.' ∧
        (rest.tail = [] ∨ rest.tail.head? = some '/') then
      -- .. element: remove to last separator
      if out.length > dotdot then
        cleanLoop rooted fuel (backtrack out dotdot) dotdot rest.tail
      else if rooted = false then
        let out1 := if out.length > 0 then out ++ ['/'] else out
        let out2 := out1 ++ ['.', '.']
        cleanLoop rooted fuel out2 out2.length rest.tail
      else
        cleanLoop rooted fuel out dotdot rest.tail
    else
      -- real path element: add slash if needed, copy element
      let out1 :=
        if (rooted = true ∧ out.length ≠ 1) ∨ (rooted = false ∧ out.length ≠ 0)
        then out ++ ['/'] else out
      cleanLoop rooted fuel (out1 ++ (c :: rest).takeWhile (· ≠ '/')) dotdot
        ((c :: rest).dropWhile (· ≠ '/'))

/-- Go `filepath.Clean(path)`. -/
def Clean (path : Str) : Option Str :=
  if path = [] then some ['.']
  else
    let rooted : Bool := path.head? = some '/'
    let start : Str × Str := if rooted then (['/'], path.tail) else ([], path)
    match cleanLoop rooted path.length start.1 start.1.length start.2 with
    | none => none
    | some out => some (if out.length = 0 then ['.'] else out)

/-- Go `strings.Join(elems, sep)`. -/
def strJoin : List Str → Str → Str
  | [], _ => []
  | [a], _ => a
  | a :: b :: t, sep => a ++ sep ++ strJoin (b :: t) sep

/-- Go `filepath.Join(elem...)`: the elements from the first non-empty one on,
joined with `'/'` and cleaned; the empty string when all are empty. -/
def Join : List Str → Option Str
  | [] => some []
  | e :: rest => if e ≠ [] then Clean (strJoin (e :: rest) ['/']) else Join rest

/-- The backward loop of `filepath.Ext` over the reversed path; `acc` is the
suffix already passed. -/
def extLoop : Str → Str → Str
  | [], _ => []
  | c :: t, acc =>
    if c = '/' then []
    else if c = '.' then '.' :: acc
    else extLoop t (c :: acc)

/-- Go `filepath.Ext(path)`: the suffix beginning at the final dot in the final
element of `path`; empty if there is no dot. -/
def Ext (path : Str) : Str :=
  extLoop path.reverse []

/-- Go `unicode.ToLower(r)`: inside ASCII the letters `A`..`Z` are shifted to
`a`..`z`; outside ASCII the case tables of the Go library decide, which are
taken as the parameter `table`. -/
def lowerRune (table : Char → Char) (c : Char) : Char :=
  if c.toNat < 128 then c.toLower else table c

/-- Go `strings.ToLower(s)`: every character mapped by `unicode.ToLower` (the
ASCII fast path of the library computes the same string). -/
def ToLower (table : Char → Char) (s : Str) : Str :=
  s.map (lowerRune table)

/-- The verb `%d` of `fmt.Sprintf` on an `int`: decimal digits, with a minus
sign for a negative number. -/
def formatInt : Int → Str
  | Int.ofNat n => Nat.toDigits 10 n
  | Int.negSucc n => '-' :: Nat.toDigits 10 (n + 1)

/-- The conversion `[]byte(s)`: the UTF-8 encoding of the string. -/
def toBytes (s : Str) : Bytes :=
  s.flatMap String.utf8EncodeChar

/-! ## `utils/file_utils.go` -/

/-- Function `utils.GetContentType`. -/
def GetContentType (table : Char → Char) (path : Str) : Str :=
  let ext := ToLower table (Ext path)
  if ext = ".html".toList ∨ ext = ".htm".toList then "text/html".toList
  else if ext = ".jpg".toList ∨ ext = ".jpeg".toList then "image/jpeg".toList
  else if ext = ".png".toList then "image/png".toList
  else if ext = ".gif".toList then "image/gif".toList
  else if ext = ".mp3".toList then "audio/mpeg".toList
  else if ext = ".wav".toList then "audio/wav".toList
  else if ext = ".midi".toList ∨ ext = ".mid".toList then "audio/midi".toList
  else if ext = ".css".toList then "text/css".toList
  else if ext = ".js".toList then "application/javascript".toList
  else if ext = ".txt".toList then "text/plain".toList
  else "application/octet-stream".toList

/-- Function `utils.SanitizePath`. -/
def SanitizePath (path : Str) : Option Str :=
  match Clean path with
  | none => none
  | some cleanPath =>
    if HasPrefix cleanPath "..".toList then some []
    else some cleanPath

/-! ## `handler/http_handler.go` -/

/-- Go `map[string]string`, as an association list with distinct keys. -/
abbrev HeaderMap := List (Str × Str)

/-- The map assignment `m[k] = v`. -/
def mapSet (m : HeaderMap) (k v : Str) : HeaderMap :=
  (k, v) :: m.filter (fun e => e.1 ≠ k)

/-- The map lookup `m[k]`, `none` when the key is absent. -/
def mapGet (m : HeaderMap) (k : Str) : Option Str :=
  (m.find? (fun e => e.1 = k)).map (·.2)

/-- Type `handler.HTTPRequest`. -/
structure HTTPRequest where
  Method : Str
  Path : Str
  Version : Str
  Headers : HeaderMap
  deriving DecidableEq

/-- The two results of `ParseRequest`: `(req, nil)` and `(nil, err)` with the
text of the error. -/
inductive ParseResult where
  | ok (req : HTTPRequest)
  | err (msg : String)
  deriving DecidableEq

/-- The header loop of `ParseRequest`, `for i := 1; i < len(lines); i++`,
over the lines from index `i` on. -/
def parseHeaders : List Str → HeaderMap → HeaderMap
  | [], headers => headers
  | line :: rest, headers =>
    if line = [] then headers
    else
      match SplitN line ": ".toList 2 with
      | [k, v] => parseHeaders rest (mapSet headers k v)
      | _ => parseHeaders rest headers

/-- Function `handler.ParseRequest`. -/
def ParseRequest (request : Str) : Option ParseResult :=
  match Split request "\r\n".toList with
  | none => none
  | some [] => some (ParseResult.err "empty request")
  | some (line0 :: rest) =>
    match Split line0 " ".toList with
    | none => none
    | some [method, path, version] =>
      some (ParseResult.ok
        { Method := method, Path := path, Version := version,
          Headers := parseHeaders rest [] })
    | some _ => some (ParseResult.err "invalid request line")

/-- Function `handler.CreateResponseHeader`. -/
def CreateResponseHeader (statusCode : Int) (phrase contentType : Str)
    (contentLength : Int) : Str :=
  "HTTP/1.1 ".toList ++ formatInt statusCode ++ " ".toList ++ phrase ++ "\r\n".toList ++
    "Server: Very Simple Web Server\r\n".toList ++
    "Content-Length: ".toList ++ formatInt contentLength ++ "\r\n".toList ++
    "Content-Type: ".toList ++ contentType ++ "\r\n".toList ++
    "Connection: close\r\n".toList ++
    "\r\n".toList

/-! ## `main.go` -/

/-- The collaborators of one connection.  `stat p` is `os.Stat(p)`: `none` for
an error, otherwise whether the path is a directory.  `readFile p` is
`os.ReadFile(p)`.  `parseFiles p` is `template.ParseFiles(p)`, giving a
template whose `Execute` on the code and the message renders bytes or fails.
`headerWriteOk` tells whether writing the success header to the connection
succeeds, and `lowerTable` is the case table of the library outside ASCII. -/
structure Env where
  stat : Str → Option Bool
  readFile : Str → Option Bytes
  parseFiles : Str → Option (Int → Str → Option Bytes)
  headerWriteOk : Bool
  lowerTable : Char → Char

/-- What a connection handler does to its collaborators, in order. -/
inductive Event where
  | stat (path : Str)
  | readFile (path : Str)
  | parseFiles (path : Str)
  | write (data : Bytes)
  deriving DecidableEq

/-- The fallback body of `sendErrorPage`. -/
def fallbackBody (statusCode : Int) (phrase : Str) : Bytes :=
  toBytes ("<html><body><h1>".toList ++ formatInt statusCode ++ " ".toList ++ phrase ++
    "</h1></body></html>".toList)

/-- The body chosen by `sendErrorPage`: the rendered template, or the
fallback when the template cannot be loaded or fails to render. -/
def errorBody (env : Env) (statusCode : Int) (phrase : Str) : Bytes :=
  match env.parseFiles "templates/error.html".toList with
  | some errorTemplate =>
    match errorTemplate statusCode phrase with
    | some rendered => rendered
    | none => fallbackBody statusCode phrase
  | none => fallbackBody statusCode phrase

/-- The header written by `sendErrorPage` for a body of `contentLength` bytes. -/
def errorHeader (statusCode : Int) (phrase : Str) (contentLength : Int) : Str :=
  "HTTP/1.1 ".toList ++ formatInt statusCode ++ " ".toList ++ phrase ++ "\r\n".toList ++
    "Content-Length: ".toList ++ formatInt contentLength ++ "\r\n".toList ++
    "Content-Type: text/html\r\n".toList ++
    "Connection: close\r\n".toList ++
    "\r\n".toList

/-- Function `sendErrorPage`: the template is loaded, then the header and the body are
written (the results of both writes are ignored). -/
def sendErrorPage (env : Env) (statusCode : Int) (phrase : Str) : List Event :=
  let content := errorBody env statusCode phrase
  let response := errorHeader statusCode phrase content.length
  [Event.parseFiles "templates/error.html".toList,
   Event.write (toBytes response), Event.write content]

/-- Function `handleConnection` from the point where the request text has been read
from the connection: the calls made to the collaborators, in order. -/
def handleConnection (env : Env) (request : Str) : Option (List Event) :=
  match ParseRequest request with
  | none => none
  | some (ParseResult.err _) => some (sendErrorPage env 400 "Bad Request".toList)
  | some (ParseResult.ok httpRequest) =>
    if httpRequest.Method ≠ "GET".toList then
      some (sendErrorPage env 405 "Method Not Allowed".toList)
    else
      let path := if httpRequest.Path = "/".toList then "/index.html".toList
        else httpRequest.Path
      match SanitizePath (TrimPrefix path "/".toList) with
      | none => none
      | some cleanPath =>
        if cleanPath = [] then some (sendErrorPage env 400 "Bad Request".toList)
        else
          match Join ["templates".toList, cleanPath] with
          | none => none
          | some filePath =>
            let contentType := GetContentType env.lowerTable filePath
            match env.stat filePath with
            | none => some (Event.stat filePath :: sendErrorPage env 404 "Not Found".toList)
            | some true =>
              some (Event.stat filePath :: sendErrorPage env 404 "Not Found".toList)
            | some false =>
              match env.readFile filePath with
              | none =>
                some (Event.stat filePath :: Event.readFile filePath ::
                  sendErrorPage env 500 "Internal Server Error".toList)
              | some content =>
                let response := CreateResponseHeader 200 "OK".toList contentType content.length
                some (Event.stat filePath :: Event.readFile filePath ::
                  Event.write (toBytes response) ::
                  (if env.headerWriteOk then [Event.write content] else []))

/-! ## The element stack of `filepath.Clean` -/

/-- The pieces of a string between the occurrences of the character `d`
(always at least one piece). -/
def fields (d : Char) : Str → List Str
  | [] => [[]]
  | c :: t =>
    if c = d then [] :: fields d t
    else
      match fields d t with
      | [] => [[c]]
      | s :: ss => (c :: s) :: ss

/-- The `'/'`-separated elements of a path (always at least one). -/
def segments (p : Str) : List Str :=
  fields '/' p

/-- A path element that `filepath.Clean` copies: non-empty, without
separator, and neither `.` nor `..`. -/
def NormalSeg (s : Str) : Prop :=
  s ≠ [] ∧ '/' ∉ s ∧ s ≠ ['.'] ∧ s ≠ ['.', '.']

/-- The buffer of `filepath.Clean` that stands for `k` leading `..` elements
followed by the elements `segs`, after the root separator when `rooted`. -/
def render (rooted : Bool) (k : Nat) (segs : List Str) : Str :=
  (if rooted then ['/'] else []) ++
    strJoin (List.replicate k ['.', '.'] ++ segs) ['/']

/-- The effect of one path element on the element stack of `filepath.Clean`. -/
def stepSeg (rooted : Bool) (st : Nat × List Str) (s : Str) : Nat × List Str :=
  if s = [] ∨ s = ['.'] then st
  else if s = ['.', '.'] then
    if st.2 ≠ [] then (st.1, st.2.dropLast)
    else if rooted then st
    else (st.1 + 1, st.2)
  else (st.1, st.2 ++ [s])

/-- The element stack of `filepath.Clean` is well formed: a rooted path has
no leading `..`, and every stacked element is a copied one. -/
def Valid (rooted : Bool) (st : Nat × List Str) : Prop :=
  (rooted = true → st.1 = 0) ∧ ∀ s ∈ st.2, NormalSeg s

/-- The value of `dotdot` that goes with `k` leading `..` elements. -/
def dotdotOf (rooted : Bool) (k : Nat) : Nat :=
  (render rooted k []).length

/-- The functional reading of `filepath.Clean`: the elements of the path are
folded onto the element stack, which is then written out. -/
def cleanSpec (path : Str) : Str :=
  if path = [] then ['.']
  else
    let rooted : Bool := path.head? = some '/'
    let st := (segments (if rooted then path.tail else path)).foldl (stepSeg rooted) (0, [])
    let out := render rooted st.1 st.2
    if out = [] then ['.'] else out

/-- The outputs of `filepath.Clean`: `.`, or a written-out well-formed element
stack that is not empty. -/
def CleanForm (q : Str) : Prop :=
  q = ['.'] ∨ ∃ rooted k segs, Valid rooted (k, segs) ∧ q = render rooted k segs ∧ q ≠ []

/-- The path begins with a `..` element. -/
def StartsDotDot (p : Str) : Prop :=
  (segments p).head? = some ['.', '.']

instance (p : Str) : Decidable (StartsDotDot p) :=
  inferInstanceAs (Decidable ((segments p).head? = some ['.', '.']))

/-! ## Reference definitions for the request parser -/

/-- The cut of a string at the first occurrence of the two characters `x y`:
the text before it and the text after it; `none` when they do not occur. -/
def cutAt (x y : Char) : Str → Option (Str × Str)
  | [] => none
  | c :: t =>
    if c = x ∧ t.head? = some y then some ([], t.tail)
    else (cutAt x y t).map fun ar => (c :: ar.1, ar.2)

/-- The CRLF-separated lines of a text (always at least one line). -/
def crlfLines : Str → List Str
  | [] => [[]]
  | [c] => [[c]]
  | c :: c2 :: t =>
    if c = '\r' ∧ c2 = '\n' then [] :: crlfLines t
    else
      match crlfLines (c2 :: t) with
      | [] => [[c]]
      | l :: ls => (c :: l) :: ls

/-- The first line of a text: the text before the first CRLF, or the whole
text when there is no CRLF. -/
def firstLine (s : Str) : Str :=
  match cutAt '\r' '\n' s with
  | none => s
  | some ar => ar.1

/-- The header lines of a request: the lines after the request line, up to
the first empty line or the end of the input. -/
def headerLines (request : Str) : List Str :=
  (crlfLines request).tail.takeWhile (· ≠ [])

/-- The header fields of a request in the order received: every header line
that contains `": "`, cut at its first occurrence; the other lines are
skipped. -/
def headerPairs (request : Str) : List (Str × Str) :=
  (headerLines request).filterMap (cutAt ':' ' ')

/-- The value of the last pair with the given key. -/
def lastValue : List (Str × Str) → Str → Option Str
  | [], _ => none
  | kv :: rest, key =>
    match lastValue rest key with
    | some w => some w
    | none => if kv.1 = key then some kv.2 else none

/-! ## A sample environment -/

/-- An environment whose content root holds the single regular file
`templates/index.html` with the three bytes `<h>`, and the directory
`templates` itself; the error template is not available. -/
def sampleEnv : Env where
  stat := fun p =>
    if p = "templates/index.html".toList then some false
    else if p = "templates".toList then some true
    else none
  readFile := fun p => if p = "templates/index.html".toList then some [60, 104, 62] else none
  parseFiles := fun _ => none
  headerWriteOk := true
  lowerTable := id

/-! ## The bytes sent to the client -/

/-- The bytes written to the connection by a sequence of calls, in order. -/
def written : List Event → Bytes
  | [] => []
  | Event.write data :: rest => data ++ written rest
  | _ :: rest => written rest

/-- Whether a header text carries a `Server` line: one of its CRLF-separated
lines begins with `Server:`. -/
def hasServerLine (header : Str) : Bool :=
  (crlfLines header).any fun line => HasPrefix line "Server:".toList

/-- The sample environment with an error template that loads and renders no
bytes at all (an empty `templates/error.html`). -/
def blankTemplateEnv : Env :=
  { sampleEnv with parseFiles := fun _ => some fun _ _ => some [] }

/-- The header text made of the given lines, each terminated by CRLF, and
closed by one empty line. -/
def crlfFrame (lines : List Str) : Str :=
  lines.foldr (fun line acc => line ++ '\r' :: '\n' :: acc) ['\r', '\n']

/-! ## Reference definitions for the content type -/

/-- The table of content types by extension, read off the `switch` of
`GetContentType`. -/
def mimeTable : List (Str × Str) :=
  [(".html".toList, "text/html".toList), (".htm".toList, "text/html".toList),
   (".jpg".toList, "image/jpeg".toList), (".jpeg".toList, "image/jpeg".toList),
   (".png".toList, "image/png".toList), (".gif".toList, "image/gif".toList),
   (".mp3".toList, "audio/mpeg".toList), (".wav".toList, "audio/wav".toList),
   (".midi".toList, "audio/midi".toList), (".mid".toList, "audio/midi".toList),
   (".css".toList, "text/css".toList), (".js".toList, "application/javascript".toList),
   (".txt".toList, "text/plain".toList)]

/-- The table lookup, with `application/octet-stream` for an extension that
is not in the table. -/
def lookupType (ext : Str) : Str :=
  (mimeTable.lookup ext).getD "application/octet-stream".toList

/-- The suffix of a path element that starts at its last `'.'`; empty when
the element has no `'.'`. -/
def suffixFromLastDot : Str → Str
  | [] => []
  | c :: t =>
    match suffixFromLastDot t with
    | [] => if c = '.' then c :: t else []
    | s => s

/-- The extension of a path: the suffix starting at the last `'.'` of its
final element. -/
def extension (path : Str) : Str :=
  suffixFromLastDot ((segments path).getLastD [])

/-- What the theorems on letter case need of the case table of the library
outside ASCII: no character is mapped to `'/'` or to `'.'`, and the image of
a character is a character that lower-casing leaves alone. -/
def CaseTable (table : Char → Char) : Prop :=
  ∀ c : Char, 128 ≤ c.toNat →
    table c ≠ '/' ∧ table c ≠ '.' ∧ lowerRune table (table c) = table c

/-! ## `filepath.Clean` computes the element stack -/

theorem strJoin_cons_cons (a b : Str) (t : List Str) (sep : Str) :
    strJoin (a :: b :: t) sep = a ++ sep ++ strJoin (b :: t) sep := rfl

theorem strJoin_snoc (l : List Str) (s sep : Str) (h : l ≠ []) :
    strJoin (l ++ [s]) sep = strJoin l sep ++ sep ++ s := by
  induction l with
  | nil => exact absurd rfl h
  | cons a t ih =>
    cases t with
    | nil => simp [strJoin]
    | cons b t' =>
      have := ih (by simp)
      simp only [List.cons_append, strJoin_cons_cons] at this ⊢
      rw [this]; simp

theorem strJoin_ne_nil (l : List Str) (sep : Str) (h : l ≠ [])
    (hne : ∀ x ∈ l, x ≠ []) : strJoin l sep ≠ [] := by
  cases l with
  | nil => exact absurd rfl h
  | cons a t =>
    have ha : a ≠ [] := hne a (by simp)
    cases t with
    | nil => simpa [strJoin] using ha
    | cons b t' => simp [strJoin, ha]

theorem backScan_eq (buf : Str) (d t : Nat) (hd : d ≤ t)
    (ht : t ≤ d ∨ buf.get? t = some '/') :
    ∀ j, (∀ i, t < i → i ≤ t + j → buf.get? i ≠ some '/') →
      backScan buf d (t + j) = t := by
  intro j
  induction j with
  | zero =>
    intro _
    cases t with
    | zero => rfl
    | succ w =>
      simp only [Nat.add_zero, backScan]
      rw [if_neg]
      rintro ⟨h1, h2⟩
      rcases ht with ht | ht
      · omega
      · exact h2 ht
  | succ j ih =>
    intro h
    have : t + (j + 1) = (t + j) + 1 := by omega
    rw [this]
    simp only [backScan]
    rw [if_pos]
    · exact ih (fun i h1 h2 => h i h1 (by omega))
    · exact ⟨by omega, h _ (by omega) (by omega)⟩

theorem backtrack_last (pre s : Str) (hs : s ≠ []) (hsl : '/' ∉ s) :
    backtrack (pre ++ s) pre.length = pre := by
  unfold backtrack
  obtain ⟨j, hj⟩ : ∃ j, s.length = j + 1 :=
    ⟨s.length - 1, by have := List.length_pos.mpr hs; omega⟩
  have hlen : (pre ++ s).length - 1 = pre.length + j := by
    simp [hj]
  rw [hlen, backScan_eq (pre ++ s) pre.length pre.length (le_refl _) (Or.inl (le_refl _))]
  · simp
  · intro i h1 h2 hc
    rw [List.get?_eq_getElem?, List.getElem?_append_right (by omega)] at hc
    exact hsl (List.getElem?_mem hc)

theorem backtrack_sep (pre s : Str) (d : Nat) (hd : d ≤ pre.length) (hsl : '/' ∉ s) :
    backtrack (pre ++ '/' :: s) d = pre := by
  unfold backtrack
  have hlen : (pre ++ '/' :: s).length - 1 = pre.length + s.length := by
    simp
  rw [hlen, backScan_eq (pre ++ '/' :: s) d pre.length hd (Or.inr (by
      rw [List.get?_eq_getElem?, List.getElem?_append_right (le_refl _)]; simp))]
  · simp
  · intro i h1 h2 hc
    rw [List.get?_eq_getElem?, List.getElem?_append_right (by omega)] at hc
    obtain ⟨m, hm⟩ : ∃ m, i - pre.length = m + 1 := ⟨i - pre.length - 1, by omega⟩
    rw [hm, List.getElem?_cons_succ] at hc
    exact hsl (List.getElem?_mem hc)

theorem cleanLoop_sep (rooted : Bool) (fuel : Nat) (out : Str) (d : Nat) (rest : Str) :
    cleanLoop rooted (fuel + 1) out d ('/' :: rest) = cleanLoop rooted fuel out d rest := by
  simp [cleanLoop]

theorem cleanLoop_dot (rooted : Bool) (fuel : Nat) (out : Str) (d : Nat) (rest : Str)
    (h : rest = [] ∨ rest.head? = some '/') :
    cleanLoop rooted (fuel + 1) out d ('.' :: rest) = cleanLoop rooted fuel out d rest := by
  rw [cleanLoop, if_neg (by decide), if_pos ⟨rfl, h⟩]

theorem cleanLoop_dotdot (rooted : Bool) (fuel : Nat) (out : Str) (d : Nat) (rest : Str)
    (h : rest = [] ∨ rest.head? = some '/') :
    cleanLoop rooted (fuel + 1) out d ('.' :: '.' :: rest) =
      if out.length > d then cleanLoop rooted fuel (backtrack out d) d rest
      else if rooted = false then
        cleanLoop rooted fuel ((if out.length > 0 then out ++ ['/'] else out) ++ ['.', '.'])
          ((if out.length > 0 then out ++ ['/'] else out) ++ ['.', '.']).length rest
      else cleanLoop rooted fuel out d rest := by
  rw [cleanLoop, if_neg (by decide), if_neg (by simp), if_pos ⟨rfl, rfl, h⟩]
  rfl

theorem takeWhile_append_sep (s r : Str) (hs : '/' ∉ s) (hr : r = [] ∨ r.head? = some '/') :
    (s ++ r).takeWhile (· ≠ '/') = s ∧ (s ++ r).dropWhile (· ≠ '/') = r := by
  induction s with
  | nil =>
    rcases hr with rfl | hr
    · simp
    · cases r with
      | nil => simp
      | cons c t =>
        simp at hr; subst hr
        simp [List.takeWhile, List.dropWhile]
  | cons c t ih =>
    have hc : c ≠ '/' := fun h => hs (by simp [h])
    have ht : '/' ∉ t := fun h => hs (by simp [h])
    simp [List.takeWhile, List.dropWhile, hc]
    simpa using ih ht

theorem cleanLoop_copy (rooted : Bool) (fuel : Nat) (out : Str) (d : Nat) (s r : Str)
    (hs : NormalSeg s) (hr : r = [] ∨ r.head? = some '/') :
    cleanLoop rooted (fuel + 1) out d (s ++ r) =
      cleanLoop rooted fuel
        ((if (rooted = true ∧ out.length ≠ 1) ∨ (rooted = false ∧ out.length ≠ 0)
          then out ++ ['/'] else out) ++ s) d r := by
  obtain ⟨hne, hsl, hd1, hd2⟩ := hs
  cases s with
  | nil => exact absurd rfl hne
  | cons c t =>
    have hc : c ≠ '/' := fun h => hsl (by simp [h])
    have ht : '/' ∉ t := fun h => hsl (by simp [h])
    have htw := takeWhile_append_sep (c :: t) r hsl hr
    simp only [List.cons_append] at htw ⊢
    rw [cleanLoop, if_neg hc, if_neg, if_neg, htw.1, htw.2]
    · -- not a `..` element
      rintro ⟨rfl, h1, h2⟩
      cases t with
      | nil =>
        rcases hr with rfl | hr
        · simp at h1
        · simp [hr] at h1
      | cons c2 t2 =>
        simp at h1; subst h1
        cases t2 with
        | nil => exact hd2 rfl
        | cons c3 t3 =>
          simp at h2; subst h2
          exact ht (by simp)
    · -- not a `.` element
      rintro ⟨rfl, h1⟩
      cases t with
      | nil => exact hd1 rfl
      | cons c2 t2 =>
        simp at h1; subst h1
        exact ht (by simp)

theorem strJoin_append (l m : List Str) (sep : Str) (hl : l ≠ []) (hm : m ≠ []) :
    strJoin (l ++ m) sep = strJoin l sep ++ sep ++ strJoin m sep := by
  induction l with
  | nil => exact absurd rfl hl
  | cons a t ih =>
    cases t with
    | nil =>
      cases m with
      | nil => exact absurd rfl hm
      | cons b m' => simp [strJoin]
    | cons b t' =>
      have := ih (by simp)
      simp only [List.cons_append, strJoin_cons_cons] at this ⊢
      rw [this]; simp

theorem dots_ne_nil : ∀ x ∈ List.replicate k ['.', '.'], x ≠ ([] : Str) := by
  intro x hx
  rw [List.eq_of_mem_replicate hx]; simp

theorem render_segs (rooted : Bool) (k : Nat) (segs : List Str) (h : segs ≠ []) :
    render rooted k segs =
      render rooted k [] ++ (if k = 0 then [] else ['/']) ++ strJoin segs ['/'] := by
  unfold render
  by_cases hk : k = 0
  · subst hk; simp [strJoin]
  · have : List.replicate k ['.', '.'] ≠ ([] : List Str) := by
      cases k with
      | zero => exact absurd rfl hk
      | succ n => simp [List.replicate]
    rw [strJoin_append _ _ _ this h]; simp [hk]

theorem render_snoc (rooted : Bool) (k : Nat) (segs : List Str) (s : Str) :
    render rooted k (segs ++ [s]) =
      (if k = 0 ∧ segs = [] then render rooted k segs
        else render rooted k segs ++ ['/']) ++ s := by
  unfold render
  by_cases h : List.replicate k ['.', '.'] ++ segs = ([] : List Str)
  · have hk : k = 0 := by
      cases k with
      | zero => rfl
      | succ n => simp [List.replicate] at h
    subst hk
    have hs : segs = [] := by simpa using h
    subst hs
    simp [strJoin]
  · have hc : ¬ (k = 0 ∧ segs = []) := by
      rintro ⟨rfl, rfl⟩; exact h (by simp)
    rw [← List.append_assoc, strJoin_snoc _ _ _ h, if_neg hc]; simp

theorem dotdotOf_le (rooted : Bool) (k : Nat) (segs : List Str) :
    dotdotOf rooted k ≤ (render rooted k segs).length := by
  by_cases h : segs = []
  · subst h; exact le_refl _
  · rw [render_segs rooted k segs h]; simp [dotdotOf]

theorem dotdotOf_lt (rooted : Bool) (k : Nat) (segs : List Str) (h : segs ≠ [])
    (hn : ∀ s ∈ segs, NormalSeg s) :
    dotdotOf rooted k < (render rooted k segs).length := by
  have := List.length_pos.mpr (strJoin_ne_nil segs ['/'] h (fun x hx => (hn x hx).1))
  rw [render_segs rooted k segs h]; simp [dotdotOf]; omega

theorem render_length_pre (rooted : Bool) (k : Nat) (segs : List Str)
    (hn : ∀ s ∈ segs, NormalSeg s) :
    ((rooted = true ∧ (render rooted k segs).length ≠ 1) ∨
      (rooted = false ∧ (render rooted k segs).length ≠ 0)) ↔ ¬ (k = 0 ∧ segs = []) := by
  constructor
  · rintro h ⟨rfl, rfl⟩
    cases rooted <;> simp [render, strJoin] at h
  · intro h
    have hne : List.replicate k ['.', '.'] ++ segs ≠ ([] : List Str) := by
      intro hc
      apply h
      cases k with
      | zero => exact ⟨rfl, by simpa using hc⟩
      | succ n => simp [List.replicate] at hc
    have hpos := List.length_pos.mpr (strJoin_ne_nil _ ['/'] hne (by
      intro x hx
      rcases List.mem_append.mp hx with hx | hx
      · exact dots_ne_nil x hx
      · exact (hn x hx).1))
    cases rooted
    · right; refine ⟨rfl, ?_⟩
      show ([] ++ strJoin _ _).length ≠ 0
      rw [List.nil_append]; omega
    · left; refine ⟨rfl, ?_⟩
      show (['/'] ++ strJoin _ _).length ≠ 1
      rw [List.length_append, List.length_singleton]; omega

theorem cleanLoop_step (rooted : Bool) (st : Nat × List Str) (s r : Str) (fuel : Nat)
    (hv : Valid rooted st) (hs : '/' ∉ s) (hr : r = [] ∨ r.head? = some '/')
    (hf : (s ++ r).length ≤ fuel) :
    ∃ fuel', r.length ≤ fuel' ∧
      cleanLoop rooted fuel (render rooted st.1 st.2) (dotdotOf rooted st.1) (s ++ r) =
        cleanLoop rooted fuel' (render rooted (stepSeg rooted st s).1 (stepSeg rooted st s).2)
          (dotdotOf rooted (stepSeg rooted st s).1) r := by
  obtain ⟨k, segs⟩ := st
  obtain ⟨hk, hn⟩ := hv
  simp only at hk hn ⊢
  by_cases h0 : s = []
  · subst h0
    exact ⟨fuel, by simpa using hf, by simp [stepSeg]⟩
  by_cases h1 : s = ['.']
  · subst h1
    obtain ⟨f, rfl⟩ : ∃ f, fuel = f + 1 := ⟨fuel - 1, by simp at hf; omega⟩
    refine ⟨f, by simp at hf; omega, ?_⟩
    simp only [List.singleton_append, List.cons_append, List.nil_append]
    rw [cleanLoop_dot _ _ _ _ _ hr]
    simp [stepSeg]
  by_cases h2 : s = ['.', '.']
  · subst h2
    obtain ⟨f, rfl⟩ : ∃ f, fuel = f + 1 := ⟨fuel - 1, by simp at hf; omega⟩
    refine ⟨f, by simp at hf; omega, ?_⟩
    simp only [List.cons_append, List.nil_append]
    rw [cleanLoop_dotdot _ _ _ _ _ hr]
    by_cases hsegs : segs = []
    · subst hsegs
      have hlen : ¬ (render rooted k []).length > dotdotOf rooted k := by
        simp [dotdotOf]
      rw [if_neg hlen]
      cases rooted with
      | true => simp [stepSeg]
      | false =>
        have hr' : render false (k + 1) [] =
            (if (render false k []).length > 0 then render false k [] ++ ['/']
              else render false k []) ++ ['.', '.'] := by
          have := render_snoc false k [] ['.', '.']
          cases k with
          | zero => simp [render, strJoin]
          | succ n =>
            simp only [render, List.append_nil, Bool.false_eq_true, if_false,
              List.nil_append] at this ⊢
            rw [List.replicate_succ' (n + 1), strJoin_snoc _ _ _ (by simp [List.replicate])]
            have : (strJoin (List.replicate (n + 1) ['.', '.']) ['/']).length > 0 :=
              List.length_pos.mpr (strJoin_ne_nil _ _ (by simp [List.replicate]) dots_ne_nil)
            rw [if_pos this]
        simp only [stepSeg, if_true, if_false, ne_eq, not_true, Bool.false_eq_true,
          List.cons_ne_self, or_self, reduceCtorEq, not_false_eq_true]
        simp only [dotdotOf, hr']
    · obtain ⟨segs', s', rfl⟩ : ∃ segs' s', segs = segs' ++ [s'] :=
        ⟨segs.dropLast, segs.getLast hsegs, (List.dropLast_append_getLast hsegs).symm⟩
      have hs' : NormalSeg s' := hn s' (by simp)
      rw [if_pos (dotdotOf_lt rooted k _ hsegs hn)]
      have hb : backtrack (render rooted k (segs' ++ [s'])) (dotdotOf rooted k) =
          render rooted k segs' := by
        rw [render_snoc]
        by_cases hc : k = 0 ∧ segs' = []
        · rw [if_pos hc]
          obtain ⟨rfl, rfl⟩ := hc
          exact backtrack_last _ _ hs'.1 hs'.2.1
        · rw [if_neg hc, List.append_assoc]
          exact backtrack_sep _ _ _ (dotdotOf_le rooted k segs') hs'.2.1
      rw [hb]
      simp [stepSeg]
  · have hns : NormalSeg s := ⟨h0, hs, h1, h2⟩
    obtain ⟨f, rfl⟩ : ∃ f, fuel = f + 1 := by
      refine ⟨fuel - 1, ?_⟩
      have := List.length_pos.mpr h0
      simp at hf; omega
    refine ⟨f, by have := List.length_pos.mpr h0; simp at hf; omega, ?_⟩
    rw [cleanLoop_copy _ _ _ _ _ _ hns hr]
    have hst : stepSeg rooted (k, segs) s = (k, segs ++ [s]) := by
      simp [stepSeg, h0, h1, h2]
    rw [hst]
    simp only
    rw [render_snoc]
    by_cases hc : k = 0 ∧ segs = []
    · rw [if_pos hc, if_neg (by rw [render_length_pre rooted k segs hn]; simpa using hc)]
    · rw [if_neg hc, if_pos (by rw [render_length_pre rooted k segs hn]; exact hc)]

theorem stepSeg_valid (rooted : Bool) (st : Nat × List Str) (s : Str)
    (hv : Valid rooted st) (hs : '/' ∉ s) : Valid rooted (stepSeg rooted st s) := by
  obtain ⟨k, segs⟩ := st
  obtain ⟨hk, hn⟩ := hv
  simp only at hk hn
  unfold stepSeg
  split
  · exact ⟨hk, hn⟩
  · rename_i h01
    split
    · split
      · exact ⟨hk, fun x hx => hn x (List.mem_of_mem_dropLast hx)⟩
      · split
        · exact ⟨hk, hn⟩
        · rename_i hr
          refine ⟨fun h => absurd h hr, hn⟩
    · rename_i h2
      refine ⟨hk, ?_⟩
      intro x hx
      rcases List.mem_append.mp hx with hx | hx
      · exact hn x hx
      · have : x = s := by simpa using hx
        subst this
        exact ⟨fun h => h01 (Or.inl h), hs, fun h => h01 (Or.inr h), h2⟩

theorem foldl_stepSeg_valid (rooted : Bool) (ss : List Str) :
    ∀ st, Valid rooted st → (∀ s ∈ ss, '/' ∉ s) →
      Valid rooted (ss.foldl (stepSeg rooted) st) := by
  induction ss with
  | nil => intro st hv _; exact hv
  | cons s t ih =>
    intro st hv hs
    exact ih _ (stepSeg_valid rooted st s hv (hs s (by simp)))
      (fun x hx => hs x (by simp [hx]))

theorem cleanLoop_segs (rooted : Bool) (ss : List Str) :
    ∀ (st : Nat × List Str) (fuel : Nat), Valid rooted st → (∀ s ∈ ss, '/' ∉ s) →
      (strJoin ss ['/']).length ≤ fuel →
      cleanLoop rooted fuel (render rooted st.1 st.2) (dotdotOf rooted st.1)
          (strJoin ss ['/']) =
        some (render rooted (ss.foldl (stepSeg rooted) st).1
          (ss.foldl (stepSeg rooted) st).2) := by
  induction ss with
  | nil =>
    intro st fuel _ _ _
    simp [strJoin, cleanLoop]
  | cons s t ih =>
    intro st fuel hv hs hf
    have hs0 : '/' ∉ s := hs s (by simp)
    have hst : ∀ x ∈ t, '/' ∉ x := fun x hx => hs x (by simp [hx])
    have hv' := stepSeg_valid rooted st s hv hs0
    cases t with
    | nil =>
      obtain ⟨f', _, he⟩ := cleanLoop_step rooted st s [] fuel hv hs0 (Or.inl rfl)
        (by simpa [strJoin] using hf)
      simp only [List.append_nil] at he
      simp only [strJoin, List.foldl]
      rw [he]
      simp [cleanLoop]
    | cons b t' =>
      have hjoin : strJoin (s :: b :: t') ['/'] = s ++ '/' :: strJoin (b :: t') ['/'] := by
        simp [strJoin]
      rw [hjoin] at hf ⊢
      obtain ⟨f', hf', he⟩ := cleanLoop_step rooted st s ('/' :: strJoin (b :: t') ['/']) fuel
        hv hs0 (Or.inr rfl) hf
      rw [he]
      obtain ⟨f'', rfl⟩ : ∃ f'', f' = f'' + 1 := ⟨f' - 1, by simp at hf'; omega⟩
      rw [cleanLoop_sep]
      exact ih _ f'' hv' hst (by simp at hf'; omega)

theorem fields_ne_nil (d : Char) (p : Str) : fields d p ≠ [] := by
  cases p with
  | nil => simp [fields]
  | cons c t =>
    unfold fields
    split
    · simp
    · split <;> simp

theorem segments_ne_nil (p : Str) : segments p ≠ [] :=
  fields_ne_nil '/' p

theorem fields_join (d : Char) (p : Str) : strJoin (fields d p) [d] = p := by
  induction p with
  | nil => simp [fields, strJoin]
  | cons c t ih =>
    unfold fields
    split
    · rename_i hc
      subst hc
      have hne := fields_ne_nil c t
      cases hseg : fields c t with
      | nil => exact absurd hseg hne
      | cons a l =>
        rw [hseg] at ih
        rw [strJoin_cons_cons, ih]; simp
    · split
      · rename_i h; exact absurd h (fields_ne_nil d t)
      · rename_i s ss h
        rw [h] at ih
        cases ss with
        | nil => simp [strJoin] at ih ⊢; exact ih
        | cons b l =>
          rw [strJoin_cons_cons] at ih ⊢
          simp at ih ⊢; exact ih

theorem segments_join (p : Str) : strJoin (segments p) ['/'] = p :=
  fields_join '/' p

theorem fields_no_sep (d : Char) (p : Str) : ∀ s ∈ fields d p, d ∉ s := by
  induction p with
  | nil => simp [fields]
  | cons c t ih =>
    unfold fields
    split
    · intro s hs
      rcases List.mem_cons.mp hs with rfl | hs
      · simp
      · exact ih s hs
    · rename_i hc
      split
      · intro s hs
        have : s = [c] := by simpa using hs
        subst this
        simpa using Ne.symm hc
      · rename_i a l h
        rw [h] at ih
        intro s hs
        rcases List.mem_cons.mp hs with rfl | hs
        · have := ih a (by simp)
          simp only [List.mem_cons, not_or]
          exact ⟨Ne.symm hc, this⟩
        · exact ih s (by simp [hs])

theorem segments_no_sep (p : Str) : ∀ s ∈ segments p, '/' ∉ s :=
  fields_no_sep '/' p

theorem Clean_eq_cleanSpec (p : Str) : Clean p = some (cleanSpec p) := by
  unfold Clean cleanSpec
  by_cases hp : p = []
  · simp [hp]
  · rw [if_neg hp, if_neg hp]
    simp only
    cases hroot : (decide (p.head? = some '/'))
    · -- not rooted
      simp only [Bool.false_eq_true, if_false, List.length_nil]
      have h := cleanLoop_segs false (segments p) (0, []) p.length
        ⟨by simp, by simp⟩ (segments_no_sep p) (by rw [segments_join])
      rw [segments_join] at h
      have h0 : render false 0 [] = [] := by simp [render, strJoin]
      have hd : dotdotOf false 0 = 0 := by simp [dotdotOf, h0]
      simp only [h0, hd] at h
      rw [h]
      simp [List.length_eq_zero]
    · -- rooted
      simp only [if_true, List.length_singleton]
      have h := cleanLoop_segs true (segments p.tail) (0, []) p.length
        ⟨by simp, by simp⟩ (segments_no_sep p.tail)
        (by rw [segments_join]; simp)
      rw [segments_join] at h
      have h0 : render true 0 [] = ['/'] := by simp [render, strJoin]
      have hd : dotdotOf true 0 = 1 := by simp [dotdotOf, h0]
      simp only [h0, hd] at h
      rw [h]
      simp [List.length_eq_zero]

theorem cleanSpec_form (p : Str) : CleanForm (cleanSpec p) := by
  unfold cleanSpec
  by_cases hp : p = []
  · simp [hp, CleanForm]
  · rw [if_neg hp]
    simp only
    generalize hr : decide (p.head? = some '/') = rooted
    generalize hi : (if rooted = true then p.tail else p) = input
    have hv := foldl_stepSeg_valid rooted (segments input) (0, []) ⟨by simp, by simp⟩
      (segments_no_sep _)
    by_cases hout : render rooted
        ((segments input).foldl (stepSeg rooted) (0, [])).1
        ((segments input).foldl (stepSeg rooted) (0, [])).2 = []
    · rw [if_pos hout]; exact Or.inl rfl
    · rw [if_neg hout]
      exact Or.inr ⟨_, _, _, hv, rfl, hout⟩

theorem cleanSpec_ne_nil (p : Str) : cleanSpec p ≠ [] := by
  rcases cleanSpec_form p with h | ⟨_, _, _, _, _, h⟩
  · simp [h]
  · exact h

theorem fields_single (d : Char) (a : Str) (ha : d ∉ a) : fields d a = [a] := by
  induction a with
  | nil => rfl
  | cons c t ih =>
    have hc : c ≠ d := fun h => ha (by simp [h])
    have ht : d ∉ t := fun h => ha (by simp [h])
    rw [fields, if_neg hc, ih ht]

theorem segments_single (a : Str) (ha : '/' ∉ a) : segments a = [a] :=
  fields_single '/' a ha

theorem fields_append_sep (d : Char) (a r : Str) (ha : d ∉ a) :
    fields d (a ++ d :: r) = a :: fields d r := by
  induction a with
  | nil => simp [fields]
  | cons c t ih =>
    have hc : c ≠ d := fun h => ha (by simp [h])
    have ht : d ∉ t := fun h => ha (by simp [h])
    rw [List.cons_append, fields, if_neg hc, ih ht]

theorem segments_append_sep (a r : Str) (ha : '/' ∉ a) :
    segments (a ++ '/' :: r) = a :: segments r :=
  fields_append_sep '/' a r ha

theorem segments_strJoin (ss : List Str) (hne : ss ≠ []) (hs : ∀ s ∈ ss, '/' ∉ s) :
    segments (strJoin ss ['/']) = ss := by
  induction ss with
  | nil => exact absurd rfl hne
  | cons a t ih =>
    cases t with
    | nil => simpa [strJoin] using segments_single a (hs a (by simp))
    | cons b t' =>
      rw [strJoin_cons_cons, List.append_assoc, List.singleton_append,
        segments_append_sep _ _ (hs a (by simp)),
        ih (by simp) (fun x hx => hs x (by simp [hx]))]

theorem foldl_stepSeg_normal (rooted : Bool) (ns : List Str) :
    ∀ (k : Nat) (segs : List Str), (∀ s ∈ ns, NormalSeg s) →
      ns.foldl (stepSeg rooted) (k, segs) = (k, segs ++ ns) := by
  induction ns with
  | nil => intro k segs _; simp
  | cons s t ih =>
    intro k segs hn
    obtain ⟨h0, _, h1, h2⟩ := hn s (by simp)
    have : stepSeg rooted (k, segs) s = (k, segs ++ [s]) := by
      simp [stepSeg, h0, h1, h2]
    rw [List.foldl_cons, this, ih _ _ (fun x hx => hn x (by simp [hx]))]
    simp

theorem foldl_stepSeg_dots (j : Nat) :
    ∀ k, (List.replicate j ['.', '.']).foldl (stepSeg false) (k, []) = (k + j, []) := by
  induction j with
  | zero => intro k; simp
  | succ n ih =>
    intro k
    have : stepSeg false (k, []) ['.', '.'] = (k + 1, []) := by simp [stepSeg]
    rw [List.replicate_succ, List.foldl_cons, this, ih]
    congr 1; omega

theorem strJoin_head (ss : List Str) (a : Str) (c : Char) (t : Str) :
    (strJoin ((c :: t) :: ss) a).head? = some c := by
  cases ss <;> simp [strJoin]

theorem cleanSpec_fixed (q : Str) (h : CleanForm q) : cleanSpec q = q := by
  rcases h with rfl | ⟨rooted, k, segs, ⟨hk, hn⟩, rfl, hne⟩
  · decide
  · simp only at hk hn
    have hnosep : ∀ s ∈ segs, '/' ∉ s := fun s hs => (hn s hs).2.1
    cases rooted with
    | true =>
      have hk0 : k = 0 := hk rfl
      subst hk0
      have hq : render true 0 segs = '/' :: strJoin segs ['/'] := by simp [render]
      unfold cleanSpec
      rw [if_neg hne]
      simp only [hq, List.head?_cons, decide_True, if_true, List.tail_cons]
      by_cases hs : segs = []
      · subst hs
        simp [strJoin, segments, stepSeg, render]
      · rw [segments_strJoin segs hs hnosep, foldl_stepSeg_normal true segs 0 [] hn]
        simp [render]
    | false =>
      have hq : render false k segs = strJoin (List.replicate k ['.', '.'] ++ segs) ['/'] := by
        simp [render]
      have hne' : List.replicate k ['.', '.'] ++ segs ≠ ([] : List Str) := by
        intro hc; rw [hq, hc] at hne; exact hne rfl
      have hall : ∀ s ∈ List.replicate k ['.', '.'] ++ segs, '/' ∉ s := by
        intro s hs
        rcases List.mem_append.mp hs with hs | hs
        · rw [List.eq_of_mem_replicate hs]; decide
        · exact hnosep s hs
      have hall' : ∀ s ∈ List.replicate k ['.', '.'] ++ segs, s ≠ [] := by
        intro s hs
        rcases List.mem_append.mp hs with hs | hs
        · exact dots_ne_nil s hs
        · exact (hn s hs).1
      have hhead : (render false k segs).head? ≠ some '/' := by
        rw [hq]
        cases hl : List.replicate k ['.', '.'] ++ segs with
        | nil => exact absurd hl hne'
        | cons a l =>
          have ha : a ≠ [] := hall' a (by rw [hl]; simp)
          have ha' : '/' ∉ a := hall a (by rw [hl]; simp)
          cases a with
          | nil => exact absurd rfl ha
          | cons c t =>
            rw [strJoin_head]
            intro hc
            apply ha'
            simp at hc
            simp [hc]
      unfold cleanSpec
      rw [if_neg hne]
      simp only [hhead, decide_False, Bool.false_eq_true, if_false]
      rw [hq, segments_strJoin _ hne' hall, List.foldl_append, foldl_stepSeg_dots,
        foldl_stepSeg_normal false segs _ [] hn]
      simp only [Nat.zero_add, List.nil_append]
      rw [← hq, if_neg hne]

theorem Clean_idem (p q : Str) (h : Clean p = some q) : Clean q = some q := by
  rw [Clean_eq_cleanSpec] at h
  have hq : q = cleanSpec p := by simpa using h.symm
  rw [Clean_eq_cleanSpec, cleanSpec_fixed q (hq ▸ cleanSpec_form p)]

/-! ## `SanitizePath` and the resolved file path -/

theorem strJoin_prefix (a : Str) (l : List Str) (sep : Str) :
    a <+: strJoin (a :: l) sep := by
  cases l with
  | nil => simp [strJoin]
  | cons b t => rw [strJoin_cons_cons, List.append_assoc]; exact List.prefix_append _ _

theorem fields_head_prefix (d : Char) (p s : Str) (h : (fields d p).head? = some s) :
    s <+: p := by
  induction p generalizing s with
  | nil =>
    have : s = [] := by simpa [fields] using h.symm
    subst this; simp
  | cons c t ih =>
    unfold fields at h
    split at h
    · have : s = [] := by simpa using h.symm
      subst this; simp
    · split at h
      · have : s = [c] := by simpa using h.symm
        subst this; simp
      · rename_i a l heq
        have : s = c :: a := by simpa using h.symm
        subst this
        have := ih a (by rw [heq]; rfl)
        exact (List.cons_prefix_cons).mpr ⟨rfl, this⟩

theorem segments_head_prefix (p s : Str) (h : (segments p).head? = some s) : s <+: p :=
  fields_head_prefix '/' p s h

theorem StartsDotDot_hasPrefix (c : Str) (h : StartsDotDot c) :
    HasPrefix c "..".toList = true := by
  unfold HasPrefix
  rw [List.isPrefixOf_iff_prefix]
  exact segments_head_prefix c _ h

theorem SanitizePath_eq (p : Str) :
    SanitizePath p =
      if HasPrefix (cleanSpec p) "..".toList then some [] else some (cleanSpec p) := by
  unfold SanitizePath
  rw [Clean_eq_cleanSpec]

theorem render_dots_hasPrefix (k : Nat) (segs : List Str) :
    HasPrefix (render false (k + 1) segs) "..".toList = true := by
  unfold HasPrefix
  rw [List.isPrefixOf_iff_prefix]
  have : render false (k + 1) segs =
      strJoin (['.', '.'] :: (List.replicate k ['.', '.'] ++ segs)) ['/'] := by
    simp [render, List.replicate_succ]
  rw [this]
  exact strJoin_prefix _ _ _

/-- A path that `SanitizePath` lets through is `.` or a written-out stack of
copied elements, rooted or not, without any `..` element. -/
theorem sanitized_shape (p q : Str) (h : SanitizePath p = some q) (hq : q ≠ []) :
    q = cleanSpec p ∧ HasPrefix q "..".toList = false ∧
      (q = ['.'] ∨ ∃ rooted segs, (∀ s ∈ segs, NormalSeg s) ∧ q = render rooted 0 segs) := by
  rw [SanitizePath_eq] at h
  by_cases hp : HasPrefix (cleanSpec p) "..".toList = true
  · rw [if_pos hp] at h
    exact absurd (by simpa using h.symm) hq
  · rw [if_neg hp] at h
    have hqc : q = cleanSpec p := by simpa using h.symm
    have hp' : HasPrefix q "..".toList = false := by
      rw [hqc]; simpa using hp
    refine ⟨hqc, hp', ?_⟩
    rcases (hqc ▸ cleanSpec_form p : CleanForm q) with h1 | ⟨rooted, k, segs, hv, hr, _⟩
    · exact Or.inl h1
    · right
      cases k with
      | zero => exact ⟨rooted, segs, hv.2, hr⟩
      | succ n =>
        cases rooted with
        | true => exact absurd (hv.1 rfl) (by simp)
        | false =>
          rw [hr, render_dots_hasPrefix] at hp'
          exact absurd hp' (by simp)

/-- Go `filepath.Clean` on a `'/'`-joined list of separator-free elements whose
first element is a copied one. -/
theorem cleanSpec_strJoin (a : Str) (ss : List Str) (ha : NormalSeg a)
    (hs : ∀ s ∈ ss, '/' ∉ s) :
    cleanSpec (strJoin (a :: ss) ['/']) =
      (let st := ss.foldl (stepSeg false) (0, [a])
       if render false st.1 st.2 = [] then ['.'] else render false st.1 st.2) := by
  obtain ⟨c, t, rfl⟩ : ∃ c t, a = c :: t := by
    cases a with
    | nil => exact absurd rfl ha.1
    | cons c t => exact ⟨c, t, rfl⟩
  have hc : c ≠ '/' := fun h => ha.2.1 (by simp [h])
  have hne : strJoin ((c :: t) :: ss) ['/'] ≠ [] := by
    cases ss <;> simp [strJoin]
  have hh : (strJoin ((c :: t) :: ss) ['/']).head? ≠ some '/' := by
    rw [strJoin_head]; simpa using hc
  have hall : ∀ s ∈ (c :: t) :: ss, '/' ∉ s := by
    intro s hs'
    rcases List.mem_cons.mp hs' with rfl | hs'
    · exact ha.2.1
    · exact hs s hs'
  have hstep : stepSeg false (0, []) (c :: t) = (0, [c :: t]) := by
    simp [stepSeg, ha.2.2.1, ha.2.2.2]
  unfold cleanSpec
  rw [if_neg hne]
  simp only [hh, decide_False, Bool.false_eq_true, if_false]
  rw [segments_strJoin _ (by simp) hall, List.foldl_cons, hstep]

/-- Joining the content root with a path that `SanitizePath` let through
gives the root followed by the copied elements of that path. -/
theorem join_root_sanitized (p q : Str) (h : SanitizePath p = some q) (hq : q ≠ []) :
    ∃ segs, (∀ s ∈ segs, NormalSeg s) ∧
      Join ["templates".toList, q] = some (strJoin ("templates".toList :: segs) ['/']) := by
  have hroot : NormalSeg "templates".toList := by
    refine ⟨by decide, by decide, by decide, by decide⟩
  have hout : ∀ segs : List Str,
      (if render false 0 ("templates".toList :: segs) = [] then ['.']
        else render false 0 ("templates".toList :: segs)) =
        strJoin ("templates".toList :: segs) ['/'] := by
    intro segs
    have : render false 0 ("templates".toList :: segs) =
        strJoin ("templates".toList :: segs) ['/'] := by simp [render]
    rw [this, if_neg]
    cases segs <;> simp [strJoin]
  have hjoin : Join ["templates".toList, q] =
      some (cleanSpec (strJoin ["templates".toList, q] ['/'])) := by
    rw [Join, if_pos (by decide), Clean_eq_cleanSpec]
  obtain ⟨_, _, hshape⟩ := sanitized_shape p q h hq
  rcases hshape with rfl | ⟨rooted, segs, hn, rfl⟩
  · exact ⟨[], by simp, by rw [hjoin]; decide⟩
  · have hnosep : ∀ s ∈ segs, '/' ∉ s := fun s hs => (hn s hs).2.1
    refine ⟨segs, hn, ?_⟩
    rw [hjoin]
    cases rooted with
    | true =>
      by_cases hsegs : segs = []
      · subst hsegs; decide
      have hin : strJoin ["templates".toList, render true 0 segs] ['/'] =
          strJoin ("templates".toList :: [] :: segs) ['/'] := by
        cases segs with
        | nil => exact absurd rfl hsegs
        | cons b l => simp [strJoin, render]
      rw [hin, cleanSpec_strJoin _ _ hroot (by
        intro s hs
        rcases List.mem_cons.mp hs with rfl | hs
        · simp
        · exact hnosep s hs)]
      have h1 : stepSeg false (0, ["templates".toList]) [] = (0, ["templates".toList]) := by
        simp [stepSeg]
      simp only [List.foldl_cons, h1]
      rw [foldl_stepSeg_normal false segs 0 _ hn]
      simp only [List.singleton_append]
      rw [hout]
    | false =>
      have hsegs : segs ≠ [] := by
        rintro rfl; exact hq (by simp [render, strJoin])
      have hin : strJoin ["templates".toList, render false 0 segs] ['/'] =
          strJoin ("templates".toList :: segs) ['/'] := by
        cases segs with
        | nil => exact absurd rfl hsegs
        | cons b l => simp [strJoin, render]
      rw [hin, cleanSpec_strJoin _ _ hroot hnosep]
      simp only
      rw [foldl_stepSeg_normal false segs 0 _ hn]
      simp only [List.singleton_append]
      rw [hout]

/-- C1: `SanitizePath` is total and never returns an unsafe path.  For every
path the normal form `c` of `filepath.Clean` exists, and `SanitizePath` returns
either the empty string or `c` itself, which is then non-empty, a fixed point
of `filepath.Clean` and does not begin with a `..` element; whenever `c`
begins with a `..` element the result is the empty string, as for
`../../etc/passwd` and `a/../../etc/passwd`. -/
theorem SanitizePath_total_safe (p : Str) :
    (∃ c, Clean p = some c ∧
      (SanitizePath p = some [] ∨
        (SanitizePath p = some c ∧ c ≠ [] ∧ Clean c = some c ∧ ¬ StartsDotDot c)) ∧
      (StartsDotDot c → SanitizePath p = some [])) ∧
    SanitizePath "../../etc/passwd".toList = some [] ∧
    SanitizePath "a/../../etc/passwd".toList = some [] := by
  refine ⟨⟨cleanSpec p, Clean_eq_cleanSpec p, ?_, ?_⟩, by decide, by decide⟩
  · rw [SanitizePath_eq]
    by_cases hp : HasPrefix (cleanSpec p) "..".toList = true
    · left; rw [if_pos hp]
    · right
      rw [if_neg hp]
      refine ⟨rfl, cleanSpec_ne_nil p, Clean_idem p _ (Clean_eq_cleanSpec p), ?_⟩
      intro hs
      exact hp (StartsDotDot_hasPrefix _ hs)
  · intro hs
    rw [SanitizePath_eq, if_pos (StartsDotDot_hasPrefix _ hs)]

/-- C2: the path the handler resolves never escapes the content root.  For
every request target `t`, when `SanitizePath` lets the target through (after
`/` has been replaced by `/index.html` and one leading `/` removed), the path
`filepath.Join("templates", ...)` exists, is `templates` or begins with
`templates/`, and has no `..` element. -/
theorem resolved_path_inside_root (t q : Str)
    (h : SanitizePath (TrimPrefix (if t = "/".toList then "/index.html".toList else t)
      "/".toList) = some q)
    (hq : q ≠ []) :
    ∃ filePath, Join ["templates".toList, q] = some filePath ∧
      (filePath = "templates".toList ∨ "templates/".toList <+: filePath) ∧
      ['.', '.'] ∉ segments filePath := by
  obtain ⟨segs, hn, hj⟩ := join_root_sanitized _ q h hq
  refine ⟨_, hj, ?_, ?_⟩
  · cases segs with
    | nil => left; simp [strJoin]
    | cons b l =>
      right
      rw [strJoin_cons_cons, List.append_assoc]
      exact ⟨_, rfl⟩
  · rw [segments_strJoin _ (by simp) (by
      intro s hs
      rcases List.mem_cons.mp hs with rfl | hs
      · decide
      · exact (hn s hs).2.1)]
    intro hmem
    rcases List.mem_cons.mp hmem with h1 | h1
    · exact absurd h1 (by decide)
    · exact (hn _ h1).2.2.2 rfl

/-- Witness of C2 at the target `//etc/passwd`. -/
theorem resolved_path_inside_root_witness :
    ∃ filePath, Join ["templates".toList, "/etc/passwd".toList] = some filePath ∧
      (filePath = "templates".toList ∨ "templates/".toList <+: filePath) ∧
      ['.', '.'] ∉ segments filePath :=
  resolved_path_inside_root "//etc/passwd".toList "/etc/passwd".toList (by decide) (by decide)

/-- C8, at the path `..foo`: its normal form is `..foo`, whose first element
is not `..`, and `SanitizePath` rejects it all the same. -/
theorem SanitizePath_rejects_dotdot_name :
    Clean "..foo".toList = some "..foo".toList ∧
    ¬ StartsDotDot "..foo".toList ∧
    SanitizePath "..foo".toList = some [] := by
  decide

/-- What `SanitizePath` does accept: a path whose normal form does not begin
with the two characters `..` is answered by that normal form. -/
theorem SanitizePath_accepts (p c : Str) (hc : Clean p = some c)
    (hdd : HasPrefix c "..".toList = false) : SanitizePath p = some c ∧ c ≠ [] := by
  rw [Clean_eq_cleanSpec] at hc
  have hcs : cleanSpec p = c := by simpa using hc
  rw [SanitizePath_eq, hcs, hdd]
  exact ⟨by simp, hcs ▸ cleanSpec_ne_nil p⟩

/-- C9: `SanitizePath` is idempotent on the paths it returns. -/
theorem SanitizePath_idempotent (p q : Str) (h : SanitizePath p = some q) (hq : q ≠ []) :
    SanitizePath q = some q := by
  obtain ⟨hqc, hp, _⟩ := sanitized_shape p q h hq
  have hfix : cleanSpec q = q := by
    rw [hqc]; exact cleanSpec_fixed _ (cleanSpec_form p)
  rw [SanitizePath_eq, hfix, hp]
  simp

/-- Witness of C9 at the path `a//b/../c`, which is sanitised to `a/c`. -/
theorem SanitizePath_idempotent_witness :
    SanitizePath "a//b/../c".toList = some "a/c".toList ∧
      SanitizePath "a/c".toList = some "a/c".toList :=
  ⟨by decide, SanitizePath_idempotent "a//b/../c".toList "a/c".toList (by decide) (by decide)⟩

/-! ## `strings.Split` computes the pieces -/

theorem cutAt_spec (x y : Char) (s a r : Str) (h : cutAt x y s = some (a, r)) :
    s = a ++ x :: y :: r := by
  induction s generalizing a with
  | nil => simp [cutAt] at h
  | cons c t ih =>
    unfold cutAt at h
    split at h
    · rename_i hc
      obtain ⟨rfl, hy⟩ := hc
      cases t with
      | nil => simp at hy
      | cons c2 t2 =>
        simp at hy; subst hy
        simp at h
        obtain ⟨rfl, rfl⟩ := h
        rfl
    · cases hcut : cutAt x y t with
      | none => simp [hcut] at h
      | some ar =>
        obtain ⟨a', r'⟩ := ar
        simp [hcut] at h
        obtain ⟨rfl, rfl⟩ := h
        rw [ih a' hcut]; rfl

theorem Index_two (x y : Char) (s : Str) :
    Index s [x, y] = (cutAt x y s).map (·.1.length) := by
  induction s with
  | nil => simp [Index, cutAt, List.isPrefixOf]
  | cons c t ih =>
    unfold Index cutAt
    by_cases hc : c = x ∧ t.head? = some y
    · obtain ⟨rfl, hy⟩ := hc
      cases t with
      | nil => simp at hy
      | cons c2 t2 =>
        simp at hy; subst hy
        simp [List.isPrefixOf]
    · have hp : List.isPrefixOf [x, y] (c :: t) = false := by
        cases t with
        | nil => simp [List.isPrefixOf]
        | cons c2 t2 =>
          simp only [List.isPrefixOf, Bool.and_true, Bool.and_eq_false_imp, beq_iff_eq]
          intro h1
          simp only [List.head?_cons, Option.some.injEq] at hc
          simp only [beq_eq_false_iff_ne, ne_eq]
          intro h2
          exact hc ⟨h1.symm, h2.symm⟩
      rw [hp, if_neg hc, ih]
      cases cutAt x y t <;> simp

theorem splitLoop_two (x y : Char) (k : Nat) (s : Str) :
    splitLoop [x, y] (k + 1) s =
      match cutAt x y s with
      | none => [s]
      | some ar => ar.1 :: splitLoop [x, y] k ar.2 := by
  rw [splitLoop, Index_two]
  cases hcut : cutAt x y s with
  | none => simp
  | some ar =>
    obtain ⟨a, r⟩ := ar
    have hs := cutAt_spec x y s a r hcut
    subst hs
    simp

theorem crlfLines_ne_nil (s : Str) : crlfLines s ≠ [] := by
  match s with
  | [] => simp [crlfLines]
  | [c] => simp [crlfLines]
  | c :: c2 :: t =>
    unfold crlfLines
    split
    · simp
    · split <;> simp

theorem crlfLines_eq (s : Str) :
    crlfLines s =
      match cutAt '\r' '\n' s with
      | none => [s]
      | some ar => ar.1 :: crlfLines ar.2 := by
  induction s with
  | nil => simp [crlfLines, cutAt]
  | cons c t ih =>
    cases t with
    | nil => simp [crlfLines, cutAt]
    | cons c2 t2 =>
      by_cases hc : c = '\r' ∧ c2 = '\n'
      · obtain ⟨rfl, rfl⟩ := hc
        simp [crlfLines, cutAt]
      · have hc' : ¬ (c = '\r' ∧ (c2 :: t2).head? = some '\n') := by simpa using hc
        rw [crlfLines, if_neg hc, cutAt, if_neg hc', ih]
        cases hcut : cutAt '\r' '\n' (c2 :: t2) with
        | none => rfl
        | some ar => rfl

theorem cutAt_length (x y : Char) (s a r : Str) (h : cutAt x y s = some (a, r)) :
    r.length + 2 ≤ s.length := by
  rw [cutAt_spec x y s a r h]; simp

theorem splitLoop_crlf (k : Nat) :
    ∀ s, (crlfLines s).length ≤ k + 1 → splitLoop ['\r', '\n'] k s = crlfLines s := by
  induction k with
  | zero =>
    intro s h
    rw [crlfLines_eq] at h ⊢
    cases hcut : cutAt '\r' '\n' s with
    | none => simp [splitLoop]
    | some ar =>
      rw [hcut] at h
      simp at h
      exact absurd h (crlfLines_ne_nil ar.2)
  | succ k ih =>
    intro s h
    rw [splitLoop_two]
    rw [crlfLines_eq] at h ⊢
    cases hcut : cutAt '\r' '\n' s with
    | none => rfl
    | some ar =>
      rw [hcut] at h
      simp only at h ⊢
      rw [ih ar.2 (by simp at h; omega)]

theorem countLoop_crlf (fuel : Nat) :
    ∀ s n, s.length < fuel →
      countLoop ['\r', '\n'] fuel s n = some (n + ((crlfLines s).length - 1)) := by
  induction fuel with
  | zero => intro s n h; omega
  | succ fuel ih =>
    intro s n h
    rw [countLoop, Index_two, crlfLines_eq]
    cases hcut : cutAt '\r' '\n' s with
    | none => simp
    | some ar =>
      obtain ⟨a, r⟩ := ar
      have hs := cutAt_spec _ _ s a r hcut
      have hl := cutAt_length _ _ s a r hcut
      have hpos := List.length_pos.mpr (crlfLines_ne_nil r)
      simp only [Option.map_some']
      have hdrop : s.drop (a.length + ['\r', '\n'].length) = r := by
        rw [hs]; simp
      rw [hdrop, ih r (n + 1) (by omega)]
      simp; omega

theorem crlfLines_length (n : Nat) : ∀ s : Str, s.length ≤ n → (crlfLines s).length ≤ s.length + 1 := by
  induction n with
  | zero =>
    intro s h
    have : s = [] := List.length_eq_zero.mp (by omega)
    subst this; simp [crlfLines]
  | succ n ih =>
    intro s h
    rw [crlfLines_eq]
    cases hcut : cutAt '\r' '\n' s with
    | none => simp
    | some ar =>
      obtain ⟨a, r⟩ := ar
      have hl := cutAt_length _ _ s a r hcut
      have := ih r (by omega)
      simp; omega

/-- Go `strings.Split` on CRLF returns the CRLF-separated lines. -/
theorem Split_crlf (s : Str) : Split s "\r\n".toList = some (crlfLines s) := by
  have hsep : "\r\n".toList = ['\r', '\n'] := rfl
  rw [hsep]
  unfold Split
  rw [if_neg (by simp)]
  have hcount : Count s ['\r', '\n'] = some ((crlfLines s).length - 1) := by
    unfold Count
    simp only
    rw [countLoop_crlf _ s 0 (by omega)]
    simp
  rw [hcount]
  simp only [Option.bind_eq_bind, Option.some_bind]
  unfold genSplit
  have hlen := crlfLines_length s.length s (le_refl _)
  have hpos := List.length_pos.mpr (crlfLines_ne_nil s)
  rw [splitLoop_crlf _ s (by omega)]

theorem Index_single (c : Char) (s : Str) :
    (c ∉ s ∧ Index s [c] = none) ∨
      ∃ a r, s = a ++ c :: r ∧ c ∉ a ∧ Index s [c] = some a.length := by
  induction s with
  | nil => left; simp [Index, List.isPrefixOf]
  | cons d t ih =>
    by_cases hd : d = c
    · subst hd
      right
      exact ⟨[], t, rfl, by simp, by simp [Index, List.isPrefixOf]⟩
    · have hp : List.isPrefixOf [c] (d :: t) = false := by
        simp [List.isPrefixOf, Ne.symm hd]
      rcases ih with ⟨h1, h2⟩ | ⟨a, r, h1, h2, h3⟩
      · left
        refine ⟨by simp [Ne.symm hd, h1], ?_⟩
        rw [Index, hp]; simp [h2]
      · right
        refine ⟨d :: a, r, by rw [h1]; rfl, by simp [Ne.symm hd, h2], ?_⟩
        rw [Index, hp]; simp [h3]

theorem splitLoop_single (c : Char) (k : Nat) :
    ∀ s, s.count c ≤ k → splitLoop [c] k s = fields c s := by
  induction k with
  | zero =>
    intro s h
    have hc : c ∉ s := by
      intro hm
      have := List.count_pos_iff.mpr hm
      omega
    rw [fields_single c s hc]; rfl
  | succ k ih =>
    intro s h
    rw [splitLoop]
    rcases Index_single c s with ⟨h1, h2⟩ | ⟨a, r, h1, h2, h3⟩
    · rw [h2, fields_single c s h1]
    · rw [h3]
      subst h1
      have hcount : r.count c ≤ k := by
        simp [List.count_append, List.count_eq_zero_of_not_mem h2] at h
        omega
      simp only [List.length_singleton]
      rw [List.take_left', List.drop_append, fields_append_sep c a r h2]
      · simp [ih r hcount]
      · rfl

/-- Go `strings.Split` on a single character returns the pieces between its
occurrences. -/
theorem Split_single (c : Char) (s : Str) : Split s [c] = some (fields c s) := by
  unfold Split
  rw [if_neg (by simp)]
  simp only [Count, Option.bind_eq_bind, Option.some_bind]
  unfold genSplit
  have := List.count_le_length c s
  rw [splitLoop_single c _ s (by omega)]

theorem fields_length (c : Char) (s : Str) : (fields c s).length = s.count c + 1 := by
  induction s with
  | nil => simp [fields]
  | cons d t ih =>
    unfold fields
    by_cases hd : d = c
    · subst hd; simp [ih]
    · rw [if_neg hd]
      have hne := fields_ne_nil c t
      cases hf : fields c t with
      | nil => exact absurd hf hne
      | cons a l =>
        rw [hf] at ih
        simp [List.count_cons, hd] at ih ⊢
        omega

/-! ## `ParseRequest` -/

theorem cutAt_none (x y : Char) (s : Str) (h : x ∉ s) : cutAt x y s = none := by
  induction s with
  | nil => rfl
  | cons c t ih =>
    have hc : c ≠ x := fun e => h (by simp [e])
    have ht : x ∉ t := fun e => h (by simp [e])
    rw [cutAt, if_neg (fun e => hc e.1), ih ht]; rfl

theorem cutAt_append (x y : Char) (a r : Str) (h : x ∉ a) :
    cutAt x y (a ++ x :: y :: r) = some (a, r) := by
  induction a with
  | nil => simp [cutAt]
  | cons c t ih =>
    have hc : c ≠ x := fun e => h (by simp [e])
    have ht : x ∉ t := fun e => h (by simp [e])
    rw [List.cons_append, cutAt, if_neg (fun e => hc e.1), ih ht]; rfl

theorem crlfLines_head (s : Str) : ∃ rest, crlfLines s = firstLine s :: rest := by
  rw [crlfLines_eq]
  unfold firstLine
  cases cutAt '\r' '\n' s with
  | none => exact ⟨[], rfl⟩
  | some ar => exact ⟨crlfLines ar.2, rfl⟩

/-- Function `ParseRequest` in terms of the first line and of the lines after it. -/
theorem ParseRequest_eq (s : Str) :
    ParseRequest s =
      match fields ' ' (firstLine s) with
      | [method, path, version] =>
        some (ParseResult.ok
          { Method := method, Path := path, Version := version,
            Headers := parseHeaders (crlfLines s).tail [] })
      | _ => some (ParseResult.err "invalid request line") := by
  obtain ⟨rest, hl⟩ := crlfLines_head s
  have hsp : " ".toList = [' '] := rfl
  unfold ParseRequest
  rw [Split_crlf, hl]
  simp only [List.tail_cons]
  rw [hsp, Split_single]
  split <;> simp_all

theorem mapGet_mapSet (m : HeaderMap) (k v key : Str) :
    mapGet (mapSet m k v) key = if k = key then some v else mapGet m key := by
  unfold mapGet mapSet
  by_cases hk : k = key
  · simp [hk]
  · rw [if_neg hk]
    simp only [List.find?_cons, hk, decide_False]
    congr 1
    induction m with
    | nil => rfl
    | cons e t ih =>
      rw [List.filter_cons]
      by_cases he : e.1 = k
      · have hne : e.1 ≠ key := fun h => hk (he ▸ h)
        rw [if_neg (by simpa using he), List.find?_cons_of_neg _ (by simpa using hne), ih]
      · rw [if_pos (by simpa using he)]
        by_cases he' : e.1 = key
        · rw [List.find?_cons_of_pos _ (by simpa using he'),
            List.find?_cons_of_pos _ (by simpa using he')]
        · rw [List.find?_cons_of_neg _ (by simpa using he'),
            List.find?_cons_of_neg _ (by simpa using he'), ih]

theorem SplitN_header (line : Str) (h : line ≠ []) :
    SplitN line ": ".toList 2 =
      match cutAt ':' ' ' line with
      | none => [line]
      | some ar => [ar.1, ar.2] := by
  have hsep : ": ".toList = [':', ' '] := rfl
  have hlen := List.length_pos.mpr h
  have hk : min 2 (line.length + 1) - 1 = 0 + 1 := by omega
  rw [hsep, SplitN, genSplit, hk, splitLoop_two]
  cases cutAt ':' ' ' line <;> rfl

theorem parseHeaders_spec (lines : List Str) :
    ∀ (headers : HeaderMap) (key : Str),
      mapGet (parseHeaders lines headers) key =
        match lastValue ((lines.takeWhile (· ≠ [])).filterMap (cutAt ':' ' ')) key with
        | some w => some w
        | none => mapGet headers key := by
  induction lines with
  | nil => intro headers key; simp [parseHeaders, lastValue]
  | cons line rest ih =>
    intro headers key
    by_cases hl : line = []
    · subst hl
      simp [parseHeaders, lastValue]
    · rw [parseHeaders, if_neg hl, SplitN_header line hl]
      have htw : (line :: rest).takeWhile (· ≠ []) = line :: rest.takeWhile (· ≠ []) := by
        simp [List.takeWhile, hl]
      rw [htw]
      cases hcut : cutAt ':' ' ' line with
      | none =>
        simp only [List.filterMap_cons, hcut]
        exact ih headers key
      | some ar =>
        simp only [List.filterMap_cons, hcut, lastValue]
        rw [ih, mapGet_mapSet]
        cases lastValue (List.filterMap (cutAt ':' ' ') (rest.takeWhile (· ≠ []))) key with
        | some w => rfl
        | none => by_cases hk : ar.1 = key <;> simp [hk]

/-- C4: the three fields of a well-formed request line are recovered verbatim.
For `method`, `target` and `version` without space, CR or LF, and a
continuation that is empty or starts with CRLF, `ParseRequest` succeeds with
exactly these fields. -/
theorem ParseRequest_recovers_fields (method target version continuation : Str)
    (hm : ∀ c ∈ method, c ≠ ' ' ∧ c ≠ '\r' ∧ c ≠ '\n')
    (ht : ∀ c ∈ target, c ≠ ' ' ∧ c ≠ '\r' ∧ c ≠ '\n')
    (hv : ∀ c ∈ version, c ≠ ' ' ∧ c ≠ '\r' ∧ c ≠ '\n')
    (hc : continuation = [] ∨ "\r\n".toList <+: continuation) :
    ∃ r, ParseRequest (method ++ " ".toList ++ target ++ " ".toList ++ version ++ continuation)
        = some (ParseResult.ok r) ∧
      r.Method = method ∧ r.Path = target ∧ r.Version = version := by
  have hsp : " ".toList = [' '] := rfl
  have hline : method ++ " ".toList ++ target ++ " ".toList ++ version ++ continuation =
      (method ++ ' ' :: (target ++ ' ' :: version)) ++ continuation := by
    simp [hsp]
  have hcr : '\r' ∉ method ++ ' ' :: (target ++ ' ' :: version) := by
    intro hmem
    simp only [List.mem_append, List.mem_cons] at hmem
    rcases hmem with h | h | h | h | h
    · exact (hm _ h).2.1 rfl
    · exact absurd h (by decide)
    · exact (ht _ h).2.1 rfl
    · exact absurd h (by decide)
    · exact (hv _ h).2.1 rfl
  have hfirst : firstLine ((method ++ ' ' :: (target ++ ' ' :: version)) ++ continuation) =
      method ++ ' ' :: (target ++ ' ' :: version) := by
    unfold firstLine
    rcases hc with rfl | ⟨r, rfl⟩
    · rw [List.append_nil, cutAt_none _ _ _ hcr]
    · have : "\r\n".toList ++ r = '\r' :: '\n' :: r := rfl
      rw [this, cutAt_append _ _ _ _ hcr]
  have hfields : fields ' ' (method ++ ' ' :: (target ++ ' ' :: version)) =
      [method, target, version] := by
    rw [fields_append_sep _ _ _ (fun h => (hm _ h).1 rfl),
      fields_append_sep _ _ _ (fun h => (ht _ h).1 rfl),
      fields_single _ _ (fun h => (hv _ h).1 rfl)]
  rw [hline, ParseRequest_eq, hfirst, hfields]
  exact ⟨_, rfl, rfl, rfl, rfl⟩

/-- Witness of C4 at the request `GET /index.html HTTP/1.1` followed by a
header. -/
theorem ParseRequest_recovers_fields_witness :
    ∃ r, ParseRequest ("GET".toList ++ " ".toList ++ "/index.html".toList ++ " ".toList ++
        "HTTP/1.1".toList ++ "\r\nHost: a\r\n\r\n".toList) = some (ParseResult.ok r) ∧
      r.Method = "GET".toList ∧ r.Path = "/index.html".toList ∧
      r.Version = "HTTP/1.1".toList :=
  ParseRequest_recovers_fields "GET".toList "/index.html".toList "HTTP/1.1".toList
    "\r\nHost: a\r\n\r\n".toList (by decide) (by decide) (by decide) (Or.inr (by decide))

/-- C5: `ParseRequest` fails with `invalid request line` exactly when the
first line does not contain exactly two spaces, and succeeds otherwise,
whatever the lines after the first are. -/
theorem ParseRequest_two_spaces (s : Str) :
    ((firstLine s).count ' ' ≠ 2 ∧
        ParseRequest s = some (ParseResult.err "invalid request line")) ∨
      ((firstLine s).count ' ' = 2 ∧ ∃ r, ParseRequest s = some (ParseResult.ok r)) := by
  have hlen := fields_length ' ' (firstLine s)
  rw [ParseRequest_eq]
  by_cases h2 : (firstLine s).count ' ' = 2
  · right
    refine ⟨h2, ?_⟩
    rw [h2] at hlen
    match hf : fields ' ' (firstLine s), hlen with
    | [m, p, v], _ => exact ⟨_, rfl⟩
  · left
    refine ⟨h2, ?_⟩
    split
    · rename_i m p v hf
      rw [hf] at hlen
      simp at hlen
      omega
    · rfl

/-- C6, refuted at the request line `GET  HTTP/1.1` with two adjacent spaces:
parsing succeeds and the returned Path is empty. -/
theorem ParseRequest_empty_path :
    ¬ (∀ r, ParseRequest "GET  HTTP/1.1\r\n\r\n".toList = some (ParseResult.ok r) →
      r.Method ≠ [] ∧ r.Path ≠ [] ∧ r.Version ≠ []) := by
  intro h
  exact (h ⟨"GET".toList, [], "HTTP/1.1".toList, []⟩ (by decide)).2.1 rfl

/-- C6 as amended: on success the Method, Path and Version are the three
tokens of the first line, which is `Method SP Path SP Version`, and no token
contains a space; a token may be empty. -/
theorem ParseRequest_fields_are_tokens (s : Str) (r : HTTPRequest)
    (h : ParseRequest s = some (ParseResult.ok r)) :
    firstLine s = r.Method ++ ' ' :: (r.Path ++ ' ' :: r.Version) ∧
      ' ' ∉ r.Method ∧ ' ' ∉ r.Path ∧ ' ' ∉ r.Version := by
  rw [ParseRequest_eq] at h
  have hjoin := fields_join ' ' (firstLine s)
  have hno := fields_no_sep ' ' (firstLine s)
  split at h
  · rename_i m p v hf
    have hr : r = ⟨m, p, v, parseHeaders (crlfLines s).tail []⟩ := by
      simpa using h.symm
    subst hr
    rw [hf] at hjoin hno
    refine ⟨?_, hno m (by simp), hno p (by simp), hno v (by simp)⟩
    rw [← hjoin]; simp [strJoin]
  · simp at h

/-- Witness of the amended C6 at the request line `GET  HTTP/1.1`. -/
theorem ParseRequest_fields_are_tokens_witness :
    firstLine "GET  HTTP/1.1\r\n\r\n".toList =
        "GET".toList ++ ' ' :: (([] : Str) ++ ' ' :: "HTTP/1.1".toList) ∧
      ' ' ∉ "GET".toList ∧ ' ' ∉ ([] : Str) ∧ ' ' ∉ "HTTP/1.1".toList :=
  ParseRequest_fields_are_tokens "GET  HTTP/1.1\r\n\r\n".toList
    ⟨"GET".toList, [], "HTTP/1.1".toList, []⟩ (by decide)

/-- C7: on success the Headers map is the reference one.  Looking a key up in
the parsed map gives the value of the last header field with that key, among
the lines after the request line up to the first empty line that contain
`": "`, each cut at its first `": "`. -/
theorem ParseRequest_headers_reference (s : Str) (r : HTTPRequest)
    (h : ParseRequest s = some (ParseResult.ok r)) (key : Str) :
    mapGet r.Headers key = lastValue (headerPairs s) key := by
  rw [ParseRequest_eq] at h
  split at h
  · rename_i m p v hf
    have hr : r = ⟨m, p, v, parseHeaders (crlfLines s).tail []⟩ := by
      simpa using h.symm
    subst hr
    simp only
    rw [parseHeaders_spec]
    unfold headerPairs headerLines
    cases lastValue (List.filterMap (cutAt ':' ' ')
      ((crlfLines s).tail.takeWhile (· ≠ []))) key <;> simp [mapGet]
  · simp at h

/-- Witness of C7 at a request with a repeated key, a line without `": "`, a
value that contains `": "`, and a field after the empty line. -/
theorem ParseRequest_headers_reference_witness :
    mapGet [("Host".toList, "b: c".toList), ("Accept".toList, "x".toList)] "Host".toList =
      lastValue (headerPairs
        "GET / HTTP/1.1\r\nHost: a\r\nnoise\r\nAccept: x\r\nHost: b: c\r\n\r\nLate: z".toList)
        "Host".toList :=
  ParseRequest_headers_reference
    "GET / HTTP/1.1\r\nHost: a\r\nnoise\r\nAccept: x\r\nHost: b: c\r\n\r\nLate: z".toList
    ⟨"GET".toList, "/".toList, "HTTP/1.1".toList,
      [("Host".toList, "b: c".toList), ("Accept".toList, "x".toList)]⟩
    (by decide) "Host".toList

/-! ## `handleConnection` -/

theorem sendErrorPage_no_fs (env : Env) (statusCode : Int) (phrase : Str) (p : Str) :
    Event.stat p ∉ sendErrorPage env statusCode phrase ∧
      Event.readFile p ∉ sendErrorPage env statusCode phrase := by
  simp [sendErrorPage]

/-- What `sendErrorPage` does, written out: it loads the error template, writes
the header for the chosen body, then writes the body, which is the fallback
page when the template cannot be loaded or fails to render and the rendered
bytes otherwise. -/
theorem sendErrorPage_written_out (env : Env) (statusCode : Int) (phrase : Str) :
    ∃ body,
      sendErrorPage env statusCode phrase =
        [Event.parseFiles "templates/error.html".toList,
          Event.write (toBytes ("HTTP/1.1 ".toList ++ formatInt statusCode ++ " ".toList ++
            phrase ++ "\r\n".toList ++ "Content-Length: ".toList ++ formatInt body.length ++
            "\r\n".toList ++ "Content-Type: text/html\r\n".toList ++
            "Connection: close\r\n".toList ++ "\r\n".toList)),
          Event.write body] ∧
      (env.parseFiles "templates/error.html".toList = none →
        body = toBytes ("<html><body><h1>".toList ++ formatInt statusCode ++ " ".toList ++
          phrase ++ "</h1></body></html>".toList)) ∧
      (∀ t, env.parseFiles "templates/error.html".toList = some t →
        t statusCode phrase = none →
        body = toBytes ("<html><body><h1>".toList ++ formatInt statusCode ++ " ".toList ++
          phrase ++ "</h1></body></html>".toList)) ∧
      (∀ t b, env.parseFiles "templates/error.html".toList = some t →
        t statusCode phrase = some b → body = b) := by
  refine ⟨errorBody env statusCode phrase, rfl, ?_, ?_, ?_⟩
  · intro h
    simp only [errorBody, h]
    rfl
  · intro t h hr
    simp only [errorBody, h, hr]
    rfl
  · intro t b h hr
    simp only [errorBody, h, hr]

/-- C3: a GET request whose target, after one leading `/` is removed,
normalises to a path that begins with `..` is answered by the 400 Bad Request
error response, and the filesystem is never consulted.  The handler does
exactly three things: it loads the error template, writes the header
`HTTP/1.1 400 Bad Request` with `Content-Length` the length of the body,
`Content-Type: text/html` and `Connection: close`, and writes the body, which
is the page `<html><body><h1>400 Bad Request</h1></body></html>` unless the
template renders; no `stat` and no `readFile` is issued, and the answer is
the same whatever they would return. -/
theorem handler_rejects_traversal (env : Env) (request : Str) (r : HTTPRequest) (c : Str)
    (hp : ParseRequest request = some (ParseResult.ok r))
    (hm : r.Method = "GET".toList)
    (hc : Clean (TrimPrefix r.Path "/".toList) = some c)
    (hdd : HasPrefix c "..".toList = true) :
    handleConnection env request = some (sendErrorPage env 400 "Bad Request".toList) ∧
      (∀ p, Event.stat p ∉ sendErrorPage env 400 "Bad Request".toList ∧
        Event.readFile p ∉ sendErrorPage env 400 "Bad Request".toList) ∧
      (∀ stat readFile,
        handleConnection { env with stat := stat, readFile := readFile } request =
          handleConnection env request) ∧
      (∃ body,
        handleConnection env request =
          some [Event.parseFiles "templates/error.html".toList,
            Event.write (toBytes ("HTTP/1.1 400 Bad Request\r\nContent-Length: ".toList ++
              formatInt body.length ++
              "\r\nContent-Type: text/html\r\nConnection: close\r\n\r\n".toList)),
            Event.write body] ∧
        (env.parseFiles "templates/error.html".toList = none →
          body = toBytes "<html><body><h1>400 Bad Request</h1></body></html>".toList) ∧
        (∀ t, env.parseFiles "templates/error.html".toList = some t →
          t 400 "Bad Request".toList = none →
          body = toBytes "<html><body><h1>400 Bad Request</h1></body></html>".toList) ∧
        (∀ t b, env.parseFiles "templates/error.html".toList = some t →
          t 400 "Bad Request".toList = some b → body = b)) := by
  have hpath : r.Path ≠ "/".toList := by
    intro h
    rw [h] at hc
    have h1 : Clean (TrimPrefix "/".toList "/".toList) = some ['.'] := by decide
    rw [h1] at hc
    have : c = ['.'] := by simpa using hc.symm
    subst this
    exact absurd hdd (by decide)
  have hsan : SanitizePath (TrimPrefix r.Path "/".toList) = some [] := by
    unfold SanitizePath
    rw [hc]
    simp only
    rw [if_pos hdd]
  have key : ∀ env' : Env, handleConnection env' request =
      some (sendErrorPage env' 400 "Bad Request".toList) := by
    intro env'
    unfold handleConnection
    rw [hp]
    simp only [hm, ne_eq, not_true_eq_false, if_false, if_neg hpath, hsan, if_true]
  refine ⟨key env, fun p => sendErrorPage_no_fs env _ _ p, ?_, ?_⟩
  · intro stat readFile
    rw [key, key]
    rfl
  · obtain ⟨body, hb, h1, h2, h3⟩ := sendErrorPage_written_out env 400 "Bad Request".toList
    have hh : "HTTP/1.1 ".toList ++ formatInt 400 ++ " ".toList ++ "Bad Request".toList ++
        "\r\n".toList ++ "Content-Length: ".toList ++ formatInt body.length ++
        "\r\n".toList ++ "Content-Type: text/html\r\n".toList ++
        "Connection: close\r\n".toList ++ "\r\n".toList =
        "HTTP/1.1 400 Bad Request\r\nContent-Length: ".toList ++ formatInt body.length ++
          "\r\nContent-Type: text/html\r\nConnection: close\r\n\r\n".toList := by
      simp only [List.append_assoc]
      rfl
    rw [hh] at hb
    exact ⟨body, by rw [key, hb], h1, h2, h3⟩

/-- Witness of C3 at the request `GET /../../etc/passwd HTTP/1.1`. -/
theorem handler_rejects_traversal_witness :
    handleConnection sampleEnv "GET /../../etc/passwd HTTP/1.1\r\n\r\n".toList =
        some (sendErrorPage sampleEnv 400 "Bad Request".toList) ∧
      (∀ p, Event.stat p ∉ sendErrorPage sampleEnv 400 "Bad Request".toList ∧
        Event.readFile p ∉ sendErrorPage sampleEnv 400 "Bad Request".toList) ∧
      (∀ stat readFile,
        handleConnection { sampleEnv with stat := stat, readFile := readFile }
            "GET /../../etc/passwd HTTP/1.1\r\n\r\n".toList =
          handleConnection sampleEnv "GET /../../etc/passwd HTTP/1.1\r\n\r\n".toList) ∧
      (∃ body,
        handleConnection sampleEnv "GET /../../etc/passwd HTTP/1.1\r\n\r\n".toList =
          some [Event.parseFiles "templates/error.html".toList,
            Event.write (toBytes ("HTTP/1.1 400 Bad Request\r\nContent-Length: ".toList ++
              formatInt body.length ++
              "\r\nContent-Type: text/html\r\nConnection: close\r\n\r\n".toList)),
            Event.write body] ∧
        (sampleEnv.parseFiles "templates/error.html".toList = none →
          body = toBytes "<html><body><h1>400 Bad Request</h1></body></html>".toList) ∧
        (∀ t, sampleEnv.parseFiles "templates/error.html".toList = some t →
          t 400 "Bad Request".toList = none →
          body = toBytes "<html><body><h1>400 Bad Request</h1></body></html>".toList) ∧
        (∀ t b, sampleEnv.parseFiles "templates/error.html".toList = some t →
          t 400 "Bad Request".toList = some b → body = b)) :=
  handler_rejects_traversal sampleEnv "GET /../../etc/passwd HTTP/1.1\r\n\r\n".toList
    ⟨"GET".toList, "/../../etc/passwd".toList, "HTTP/1.1".toList, []⟩
    "../../etc/passwd".toList (by decide) (by decide) (by decide) (by decide)

theorem GetContentType_index (table : Char → Char) :
    GetContentType table "templates/index.html".toList = "text/html".toList := by
  have hext : Ext "templates/index.html".toList = ".html".toList := by decide
  have hlow : ToLower table ".html".toList = ".html".toList := by
    simp [ToLower, lowerRune]
  unfold GetContentType
  rw [hext, hlow]
  rfl

/-- C10: a GET request that passes sanitisation and whose resolved path is a
regular file with readable content `content` is answered by
`CreateResponseHeader(200, "OK", GetContentType(path), len(content))` followed
by exactly `content`; for `GET / HTTP/1.1` the resolved path is
`templates/index.html` and the content type is `text/html`. -/
theorem handler_serves_file (env : Env) (request : Str) (r : HTTPRequest)
    (q filePath : Str) (content : Bytes)
    (hp : ParseRequest request = some (ParseResult.ok r))
    (hm : r.Method = "GET".toList)
    (hs : SanitizePath (TrimPrefix
      (if r.Path = "/".toList then "/index.html".toList else r.Path) "/".toList) = some q)
    (hq : q ≠ [])
    (hj : Join ["templates".toList, q] = some filePath)
    (hstat : env.stat filePath = some false)
    (hread : env.readFile filePath = some content)
    (hw : env.headerWriteOk = true) :
    handleConnection env request =
        some [Event.stat filePath, Event.readFile filePath,
          Event.write (toBytes (CreateResponseHeader 200 "OK".toList
            (GetContentType env.lowerTable filePath) content.length)),
          Event.write content] ∧
      (request = "GET / HTTP/1.1\r\n\r\n".toList →
        filePath = "templates/index.html".toList ∧
        GetContentType env.lowerTable filePath = "text/html".toList) := by
  constructor
  · unfold handleConnection
    rw [hp]
    simp only [hm, ne_eq, not_true_eq_false, if_false, hs, if_neg hq, hj, hstat, hread, hw,
      if_true]
  · intro hreq
    subst hreq
    have hparse : ParseRequest "GET / HTTP/1.1\r\n\r\n".toList =
        some (ParseResult.ok ⟨"GET".toList, "/".toList, "HTTP/1.1".toList, []⟩) := by decide
    rw [hparse] at hp
    have hr : r = ⟨"GET".toList, "/".toList, "HTTP/1.1".toList, []⟩ := by simpa using hp.symm
    subst hr
    have hsan : SanitizePath (TrimPrefix
        (if "/".toList = "/".toList then "/index.html".toList else "/".toList) "/".toList) =
        some "index.html".toList := by decide
    rw [hsan] at hs
    have hq' : q = "index.html".toList := by simpa using hs.symm
    subst hq'
    have hjoin : Join ["templates".toList, "index.html".toList] =
        some "templates/index.html".toList := by decide
    rw [hjoin] at hj
    have hf : filePath = "templates/index.html".toList := by simpa using hj.symm
    subst hf
    exact ⟨rfl, GetContentType_index _⟩

/-- Witness of C10 at the request `GET / HTTP/1.1` in the sample environment. -/
theorem handler_serves_file_witness :
    handleConnection sampleEnv "GET / HTTP/1.1\r\n\r\n".toList =
        some [Event.stat "templates/index.html".toList,
          Event.readFile "templates/index.html".toList,
          Event.write (toBytes (CreateResponseHeader 200 "OK".toList
            (GetContentType sampleEnv.lowerTable "templates/index.html".toList)
            ([60, 104, 62] : Bytes).length)),
          Event.write [60, 104, 62]] ∧
      ("GET / HTTP/1.1\r\n\r\n".toList = "GET / HTTP/1.1\r\n\r\n".toList →
        "templates/index.html".toList = "templates/index.html".toList ∧
        GetContentType sampleEnv.lowerTable "templates/index.html".toList =
          "text/html".toList) :=
  handler_serves_file sampleEnv "GET / HTTP/1.1\r\n\r\n".toList
    ⟨"GET".toList, "/".toList, "HTTP/1.1".toList, []⟩
    "index.html".toList "templates/index.html".toList [60, 104, 62]
    (by decide) (by decide) (by decide) (by decide) (by decide) (by decide) (by decide)
    (by decide)

/-! ## The error paths of `handleConnection` -/

theorem toBytes_append (a b : Str) : toBytes (a ++ b) = toBytes a ++ toBytes b := by
  simp [toBytes]

theorem written_stat (p : Str) (rest : List Event) :
    written (Event.stat p :: rest) = written rest := rfl

theorem written_readFile (p : Str) (rest : List Event) :
    written (Event.readFile p :: rest) = written rest := rfl

theorem written_write (data : Bytes) (rest : List Event) :
    written (Event.write data :: rest) = data ++ written rest := rfl

theorem written_sendErrorPage (env : Env) (statusCode : Int) (phrase : Str) :
    written (sendErrorPage env statusCode phrase) =
      toBytes (errorHeader statusCode phrase (errorBody env statusCode phrase).length) ++
        errorBody env statusCode phrase := by
  simp [sendErrorPage, written]

/-- The error response for the code 404 begins with the bytes of
`HTTP/1.1 404`. -/
theorem written_404_start (env : Env) (phrase : Str) :
    ∃ rest, written (sendErrorPage env 404 phrase) = toBytes "HTTP/1.1 404".toList ++ rest := by
  have : errorHeader 404 phrase (errorBody env 404 phrase).length =
      "HTTP/1.1 404".toList ++ (" ".toList ++ phrase ++ "\r\n".toList ++
        "Content-Length: ".toList ++ formatInt (errorBody env 404 phrase).length ++
        "\r\n".toList ++ "Content-Type: text/html\r\n".toList ++
        "Connection: close\r\n".toList ++ "\r\n".toList) := by
    simp [errorHeader, formatInt]
    rfl
  exact ⟨_, by rw [written_sendErrorPage, this, toBytes_append, List.append_assoc]⟩

/-- The error response for the code 500 begins with the bytes of
`HTTP/1.1 500`. -/
theorem written_500_start (env : Env) (phrase : Str) :
    ∃ rest, written (sendErrorPage env 500 phrase) = toBytes "HTTP/1.1 500".toList ++ rest := by
  have : errorHeader 500 phrase (errorBody env 500 phrase).length =
      "HTTP/1.1 500".toList ++ (" ".toList ++ phrase ++ "\r\n".toList ++
        "Content-Length: ".toList ++ formatInt (errorBody env 500 phrase).length ++
        "\r\n".toList ++ "Content-Type: text/html\r\n".toList ++
        "Connection: close\r\n".toList ++ "\r\n".toList) := by
    simp [errorHeader, formatInt]
    rfl
  exact ⟨_, by rw [written_sendErrorPage, this, toBytes_append, List.append_assoc]⟩

/-- The success header begins with the bytes of `HTTP/1.1 200`. -/
theorem header_200_start (contentType : Str) (n : Int) :
    ∃ rest, toBytes (CreateResponseHeader 200 "OK".toList contentType n) =
      toBytes "HTTP/1.1 200".toList ++ rest := by
  have : CreateResponseHeader 200 "OK".toList contentType n =
      "HTTP/1.1 200".toList ++ (" OK\r\nServer: Very Simple Web Server\r\n".toList ++
        "Content-Length: ".toList ++ formatInt n ++ "\r\n".toList ++
        "Content-Type: ".toList ++ contentType ++ "\r\n".toList ++
        "Connection: close\r\n".toList ++ "\r\n".toList) := by
    simp [CreateResponseHeader, formatInt]
    rfl
  exact ⟨_, by rw [this, toBytes_append]⟩

theorem start_ne (a b : Str) (x y : Bytes) (hlen : (toBytes a).length = (toBytes b).length)
    (hne : toBytes a ≠ toBytes b) : toBytes a ++ x ≠ toBytes b ++ y := by
  intro h
  exact hne (List.append_inj h hlen).1

/-- The handler after a GET request has been parsed and its path resolved to
`filePath`: what it does depends on `stat` and `readFile` alone. -/
theorem handleConnection_resolved (env : Env) (request : Str) (r : HTTPRequest)
    (q filePath : Str)
    (hp : ParseRequest request = some (ParseResult.ok r))
    (hm : r.Method = "GET".toList)
    (hs : SanitizePath (TrimPrefix
      (if r.Path = "/".toList then "/index.html".toList else r.Path) "/".toList) = some q)
    (hq : q ≠ [])
    (hj : Join ["templates".toList, q] = some filePath) :
    handleConnection env request =
      match env.stat filePath with
      | none => some (Event.stat filePath :: sendErrorPage env 404 "Not Found".toList)
      | some true => some (Event.stat filePath :: sendErrorPage env 404 "Not Found".toList)
      | some false =>
        match env.readFile filePath with
        | none =>
          some (Event.stat filePath :: Event.readFile filePath ::
            sendErrorPage env 500 "Internal Server Error".toList)
        | some content =>
          some (Event.stat filePath :: Event.readFile filePath ::
            Event.write (toBytes (CreateResponseHeader 200 "OK".toList
              (GetContentType env.lowerTable filePath) content.length)) ::
            (if env.headerWriteOk then [Event.write content] else [])) := by
  unfold handleConnection
  rw [hp]
  simp only [hm, ne_eq, not_true_eq_false, if_false, hs, if_neg hq, hj]

/-- C11: every request that parses with a Method other than `GET` is answered
by the 405 Method Not Allowed error response, whatever its target is, and the
filesystem is never consulted.  The handler does exactly three things: it
loads the error template, writes the header `HTTP/1.1 405 Method Not Allowed`
with `Content-Length` the length of the body, `Content-Type: text/html` and
`Connection: close`, and writes the body, which is the page
`<html><body><h1>405 Method Not Allowed</h1></body></html>` unless the
template renders; no `stat` and no `readFile` is issued, and the answer is
the same whatever they would return. -/
theorem handler_method_not_allowed (env : Env) (request : Str) (r : HTTPRequest)
    (hp : ParseRequest request = some (ParseResult.ok r))
    (hm : r.Method ≠ "GET".toList) :
    handleConnection env request =
        some (sendErrorPage env 405 "Method Not Allowed".toList) ∧
      (∀ p, Event.stat p ∉ sendErrorPage env 405 "Method Not Allowed".toList ∧
        Event.readFile p ∉ sendErrorPage env 405 "Method Not Allowed".toList) ∧
      (∀ stat readFile,
        handleConnection { env with stat := stat, readFile := readFile } request =
          handleConnection env request) ∧
      (∃ body,
        handleConnection env request =
          some [Event.parseFiles "templates/error.html".toList,
            Event.write (toBytes ("HTTP/1.1 405 Method Not Allowed\r\nContent-Length: ".toList ++
              formatInt body.length ++
              "\r\nContent-Type: text/html\r\nConnection: close\r\n\r\n".toList)),
            Event.write body] ∧
        (env.parseFiles "templates/error.html".toList = none →
          body = toBytes "<html><body><h1>405 Method Not Allowed</h1></body></html>".toList) ∧
        (∀ t, env.parseFiles "templates/error.html".toList = some t →
          t 405 "Method Not Allowed".toList = none →
          body = toBytes "<html><body><h1>405 Method Not Allowed</h1></body></html>".toList) ∧
        (∀ t b, env.parseFiles "templates/error.html".toList = some t →
          t 405 "Method Not Allowed".toList = some b → body = b)) := by
  have key : ∀ env' : Env, handleConnection env' request =
      some (sendErrorPage env' 405 "Method Not Allowed".toList) := by
    intro env'
    unfold handleConnection
    rw [hp]
    simp only [ne_eq, hm, not_false_eq_true, if_true]
  refine ⟨key env, fun p => sendErrorPage_no_fs env _ _ p, ?_, ?_⟩
  · intro stat readFile
    rw [key, key]
    rfl
  · obtain ⟨body, hb, h1, h2, h3⟩ :=
      sendErrorPage_written_out env 405 "Method Not Allowed".toList
    have hh : "HTTP/1.1 ".toList ++ formatInt 405 ++ " ".toList ++ "Method Not Allowed".toList ++
        "\r\n".toList ++ "Content-Length: ".toList ++ formatInt body.length ++
        "\r\n".toList ++ "Content-Type: text/html\r\n".toList ++
        "Connection: close\r\n".toList ++ "\r\n".toList =
        "HTTP/1.1 405 Method Not Allowed\r\nContent-Length: ".toList ++ formatInt body.length ++
          "\r\nContent-Type: text/html\r\nConnection: close\r\n\r\n".toList := by
      simp only [List.append_assoc]
      rfl
    rw [hh] at hb
    exact ⟨body, by rw [key, hb], h1, h2, h3⟩

/-- Witness of C11 at the request `POST /x HTTP/1.1`. -/
theorem handler_method_not_allowed_witness :
    handleConnection sampleEnv "POST /x HTTP/1.1\r\n\r\n".toList =
        some (sendErrorPage sampleEnv 405 "Method Not Allowed".toList) ∧
      (∀ p, Event.stat p ∉ sendErrorPage sampleEnv 405 "Method Not Allowed".toList ∧
        Event.readFile p ∉ sendErrorPage sampleEnv 405 "Method Not Allowed".toList) ∧
      (∀ stat readFile,
        handleConnection { sampleEnv with stat := stat, readFile := readFile }
            "POST /x HTTP/1.1\r\n\r\n".toList =
          handleConnection sampleEnv "POST /x HTTP/1.1\r\n\r\n".toList) ∧
      (∃ body,
        handleConnection sampleEnv "POST /x HTTP/1.1\r\n\r\n".toList =
          some [Event.parseFiles "templates/error.html".toList,
            Event.write (toBytes ("HTTP/1.1 405 Method Not Allowed\r\nContent-Length: ".toList ++
              formatInt body.length ++
              "\r\nContent-Type: text/html\r\nConnection: close\r\n\r\n".toList)),
            Event.write body] ∧
        (sampleEnv.parseFiles "templates/error.html".toList = none →
          body = toBytes "<html><body><h1>405 Method Not Allowed</h1></body></html>".toList) ∧
        (∀ t, sampleEnv.parseFiles "templates/error.html".toList = some t →
          t 405 "Method Not Allowed".toList = none →
          body = toBytes "<html><body><h1>405 Method Not Allowed</h1></body></html>".toList) ∧
        (∀ t b, sampleEnv.parseFiles "templates/error.html".toList = some t →
          t 405 "Method Not Allowed".toList = some b → body = b)) :=
  handler_method_not_allowed sampleEnv "POST /x HTTP/1.1\r\n\r\n".toList
    ⟨"POST".toList, "/x".toList, "HTTP/1.1".toList, []⟩ (by decide) (by decide)

/-- C12: for a GET request that passes sanitisation, the bytes sent are the
404 Not Found error response exactly when `stat` of the resolved path fails
or reports a directory, and they are the 500 Internal Server Error error
response exactly when the path is a non-directory whose read fails. -/
theorem handler_not_found_or_read_error (env : Env) (request : Str) (r : HTTPRequest)
    (q filePath : Str)
    (hp : ParseRequest request = some (ParseResult.ok r))
    (hm : r.Method = "GET".toList)
    (hs : SanitizePath (TrimPrefix
      (if r.Path = "/".toList then "/index.html".toList else r.Path) "/".toList) = some q)
    (hq : q ≠ [])
    (hj : Join ["templates".toList, q] = some filePath) :
    ∃ tr, handleConnection env request = some tr ∧
      (written tr = written (sendErrorPage env 404 "Not Found".toList) ↔
        (env.stat filePath = none ∨ env.stat filePath = some true)) ∧
      (written tr = written (sendErrorPage env 500 "Internal Server Error".toList) ↔
        (env.stat filePath = some false ∧ env.readFile filePath = none)) := by
  have h45 : ∀ x y : Bytes,
      toBytes "HTTP/1.1 404".toList ++ x ≠ toBytes "HTTP/1.1 500".toList ++ y :=
    fun x y => start_ne _ _ x y (by decide) (by decide)
  have h24 : ∀ x y : Bytes,
      toBytes "HTTP/1.1 200".toList ++ x ≠ toBytes "HTTP/1.1 404".toList ++ y :=
    fun x y => start_ne _ _ x y (by decide) (by decide)
  have h25 : ∀ x y : Bytes,
      toBytes "HTTP/1.1 200".toList ++ x ≠ toBytes "HTTP/1.1 500".toList ++ y :=
    fun x y => start_ne _ _ x y (by decide) (by decide)
  obtain ⟨r4, e4⟩ := written_404_start env "Not Found".toList
  obtain ⟨r5, e5⟩ := written_500_start env "Internal Server Error".toList
  rw [handleConnection_resolved env request r q filePath hp hm hs hq hj]
  cases hst : env.stat filePath with
  | none =>
    refine ⟨_, rfl, ?_, ?_⟩
    · rw [written_stat]; simp
    · rw [written_stat, e4, e5]
      simp only [reduceCtorEq, false_and, iff_false]
      exact h45 _ _
  | some isDir =>
    cases isDir with
    | true =>
      refine ⟨_, rfl, ?_, ?_⟩
      · rw [written_stat]; simp
      · rw [written_stat, e4, e5]
        simp only [Option.some.injEq, Bool.true_eq_false, false_and, iff_false]
        exact h45 _ _
    | false =>
      cases hrd : env.readFile filePath with
      | none =>
        refine ⟨_, rfl, ?_, ?_⟩
        · rw [written_stat, written_readFile, e4, e5]
          simp only [reduceCtorEq, Option.some.injEq, Bool.false_eq_true, or_self, iff_false]
          exact fun h => h45 _ _ h.symm
        · rw [written_stat, written_readFile]; simp
      | some content =>
        obtain ⟨r2, e2⟩ := header_200_start (GetContentType env.lowerTable filePath)
          content.length
        refine ⟨_, rfl, ?_, ?_⟩
        · rw [written_stat, written_readFile, written_write, e4, e2, List.append_assoc]
          simp only [reduceCtorEq, Option.some.injEq, Bool.false_eq_true, or_self, iff_false]
          exact h24 _ _
        · rw [written_stat, written_readFile, written_write, e5, e2, List.append_assoc]
          simp only [reduceCtorEq, and_false, iff_false]
          exact h25 _ _

/-- Witness of C12 at the request `GET /missing.txt HTTP/1.1` in the sample
environment, where the path does not exist. -/
theorem handler_not_found_or_read_error_witness :
    ∃ tr, handleConnection sampleEnv "GET /missing.txt HTTP/1.1\r\n\r\n".toList = some tr ∧
      (written tr = written (sendErrorPage sampleEnv 404 "Not Found".toList) ↔
        (sampleEnv.stat "templates/missing.txt".toList = none ∨
          sampleEnv.stat "templates/missing.txt".toList = some true)) ∧
      (written tr = written (sendErrorPage sampleEnv 500 "Internal Server Error".toList) ↔
        (sampleEnv.stat "templates/missing.txt".toList = some false ∧
          sampleEnv.readFile "templates/missing.txt".toList = none)) :=
  handler_not_found_or_read_error sampleEnv "GET /missing.txt HTTP/1.1\r\n\r\n".toList
    ⟨"GET".toList, "/missing.txt".toList, "HTTP/1.1".toList, []⟩
    "missing.txt".toList "templates/missing.txt".toList
    (by decide) (by decide) (by decide) (by decide) (by decide)

/-- C13, refuted in the sample environment: the request line `GET  HTTP/1.1`
parses with an empty Path, the handler then stats the content root
`templates` and answers 404 Not Found, which is not the answer it gives for
the target `/`. -/
theorem handler_empty_path_not_index :
    ParseRequest "GET  HTTP/1.1\r\n\r\n".toList =
        some (ParseResult.ok ⟨"GET".toList, [], "HTTP/1.1".toList, []⟩) ∧
      handleConnection sampleEnv "GET  HTTP/1.1\r\n\r\n".toList =
        some (Event.stat "templates".toList ::
          sendErrorPage sampleEnv 404 "Not Found".toList) ∧
      handleConnection sampleEnv "GET  HTTP/1.1\r\n\r\n".toList ≠
        handleConnection sampleEnv "GET / HTTP/1.1\r\n\r\n".toList := by
  decide

/-- C13 as amended: for a GET request the target `/` is resolved to the index
resource `templates/index.html`, and an empty Path is resolved to the content
root `templates` itself, which is answered by 404 Not Found when `stat`
fails on it or reports a directory. -/
theorem handler_index_default (env : Env) (request : Str) (r : HTTPRequest)
    (hp : ParseRequest request = some (ParseResult.ok r))
    (hm : r.Method = "GET".toList) :
    (r.Path = "/".toList →
      ∃ tr, handleConnection env request = some tr ∧
        tr.head? = some (Event.stat "templates/index.html".toList)) ∧
    (r.Path = [] →
      ∃ tr, handleConnection env request = some tr ∧
        tr.head? = some (Event.stat "templates".toList) ∧
        ((env.stat "templates".toList = none ∨ env.stat "templates".toList = some true) →
          tr = Event.stat "templates".toList ::
            sendErrorPage env 404 "Not Found".toList)) := by
  constructor
  · intro hpath
    rw [handleConnection_resolved env request r "index.html".toList
      "templates/index.html".toList hp hm (by rw [hpath]; decide) (by decide) (by decide)]
    cases env.stat "templates/index.html".toList with
    | none => exact ⟨_, rfl, rfl⟩
    | some isDir =>
      cases isDir with
      | true => exact ⟨_, rfl, rfl⟩
      | false =>
        cases env.readFile "templates/index.html".toList with
        | none => exact ⟨_, rfl, rfl⟩
        | some content => exact ⟨_, rfl, rfl⟩
  · intro hpath
    rw [handleConnection_resolved env request r ".".toList "templates".toList hp hm
      (by rw [hpath]; decide) (by decide) (by decide)]
    cases hst : env.stat "templates".toList with
    | none => exact ⟨_, rfl, rfl, fun _ => rfl⟩
    | some isDir =>
      cases isDir with
      | true => exact ⟨_, rfl, rfl, fun _ => rfl⟩
      | false =>
        cases env.readFile "templates".toList with
        | none => exact ⟨_, rfl, rfl, fun h => by simp at h⟩
        | some content => exact ⟨_, rfl, rfl, fun h => by simp at h⟩

/-- Witness of the amended C13 at the request line `GET  HTTP/1.1` in the
sample environment. -/
theorem handler_index_default_witness :
    (([] : Str) = "/".toList →
      ∃ tr, handleConnection sampleEnv "GET  HTTP/1.1\r\n\r\n".toList = some tr ∧
        tr.head? = some (Event.stat "templates/index.html".toList)) ∧
    (([] : Str) = [] →
      ∃ tr, handleConnection sampleEnv "GET  HTTP/1.1\r\n\r\n".toList = some tr ∧
        tr.head? = some (Event.stat "templates".toList) ∧
        ((sampleEnv.stat "templates".toList = none ∨
            sampleEnv.stat "templates".toList = some true) →
          tr = Event.stat "templates".toList ::
            sendErrorPage sampleEnv 404 "Not Found".toList)) :=
  handler_index_default sampleEnv "GET  HTTP/1.1\r\n\r\n".toList
    ⟨"GET".toList, [], "HTTP/1.1".toList, []⟩ (by decide) (by decide)

/-! ## `sendErrorPage` and `CreateResponseHeader` -/

theorem digitChar_no_crlf (m : Nat) (h : m < 10) :
    Nat.digitChar m ≠ '\r' ∧ Nat.digitChar m ≠ '\n' := by
  interval_cases m <;> decide

theorem toDigitsCore_no_crlf (fuel : Nat) :
    ∀ (n : Nat) (ds : List Char), (∀ c ∈ ds, c ≠ '\r' ∧ c ≠ '\n') →
      ∀ c ∈ Nat.toDigitsCore 10 fuel n ds, c ≠ '\r' ∧ c ≠ '\n' := by
  induction fuel with
  | zero => intro n ds h; simpa [Nat.toDigitsCore] using h
  | succ fuel ih =>
    intro n ds h
    have hd := digitChar_no_crlf (n % 10) (Nat.mod_lt _ (by decide))
    have hds : ∀ c ∈ Nat.digitChar (n % 10) :: ds, c ≠ '\r' ∧ c ≠ '\n' := by
      intro c hc
      rcases List.mem_cons.mp hc with rfl | hc
      · exact hd
      · exact h c hc
    unfold Nat.toDigitsCore
    simp only
    split
    · exact hds
    · exact ih _ _ hds

/-- The decimal text of a number has no CR and no LF. -/
theorem formatInt_no_crlf (i : Int) : ∀ c ∈ formatInt i, c ≠ '\r' ∧ c ≠ '\n' := by
  cases i with
  | ofNat n =>
    exact toDigitsCore_no_crlf _ _ _ (by simp)
  | negSucc n =>
    intro c hc
    rcases List.mem_cons.mp hc with rfl | hc
    · decide
    · exact toDigitsCore_no_crlf _ _ _ (by simp) c hc

theorem crlfLines_append (line rest : Str) (h : '\r' ∉ line) :
    crlfLines (line ++ '\r' :: '\n' :: rest) = line :: crlfLines rest := by
  rw [crlfLines_eq, cutAt_append _ _ _ _ h]

theorem fallbackBody_eq (statusCode : Int) (phrase : Str) :
    fallbackBody statusCode phrase =
      toBytes "<html><body><h1>".toList ++ toBytes (formatInt statusCode) ++
        toBytes " ".toList ++ toBytes phrase ++ toBytes "</h1></body></html>".toList := by
  simp only [fallbackBody, toBytes_append]

/-- The body of `sendErrorPage` when the template cannot be loaded. -/
theorem errorBody_unavailable (env : Env) (statusCode : Int) (phrase : Str)
    (h : env.parseFiles "templates/error.html".toList = none) :
    errorBody env statusCode phrase = fallbackBody statusCode phrase := by
  simp only [errorBody, h]

/-- The body of `sendErrorPage` when the template loads and fails to render. -/
theorem errorBody_render_fails (env : Env) (statusCode : Int) (phrase : Str)
    (t : Int → Str → Option Bytes)
    (h : env.parseFiles "templates/error.html".toList = some t)
    (hr : t statusCode phrase = none) :
    errorBody env statusCode phrase = fallbackBody statusCode phrase := by
  simp only [errorBody, h, hr]

/-- The body of `sendErrorPage` when the template renders. -/
theorem errorBody_rendered (env : Env) (statusCode : Int) (phrase : Str)
    (t : Int → Str → Option Bytes) (b : Bytes)
    (h : env.parseFiles "templates/error.html".toList = some t)
    (hr : t statusCode phrase = some b) :
    errorBody env statusCode phrase = b := by
  simp only [errorBody, h, hr]

/-- C14, refuted with an error template that renders no bytes: the body
written by `sendErrorPage` is then empty. -/
theorem sendErrorPage_empty_body :
    ¬ (∀ header body,
      sendErrorPage blankTemplateEnv 404 "Not Found".toList =
        [Event.parseFiles "templates/error.html".toList, Event.write header,
          Event.write body] →
      body ≠ [] ∧ toBytes (formatInt 404) <:+: body ∧ toBytes "Not Found".toList <:+: body) := by
  intro h
  exact (h (toBytes (errorHeader 404 "Not Found".toList 0)) [] (by decide)).1 rfl

/-- C14 as amended: `sendErrorPage` writes a header and then a body.  When
the template cannot be loaded or fails to render, the body is non-empty and
contains the decimal status code and the reason phrase; when the template
renders, the body is exactly the rendered bytes. -/
theorem sendErrorPage_body_content (env : Env) (statusCode : Int) (phrase : Str) :
    ∃ header body,
      sendErrorPage env statusCode phrase =
        [Event.parseFiles "templates/error.html".toList, Event.write header,
          Event.write body] ∧
      ((env.parseFiles "templates/error.html".toList = none ∨
          ∃ t, env.parseFiles "templates/error.html".toList = some t ∧
            t statusCode phrase = none) →
        body ≠ [] ∧ toBytes (formatInt statusCode) <:+: body ∧ toBytes phrase <:+: body) ∧
      (∀ t b, env.parseFiles "templates/error.html".toList = some t →
        t statusCode phrase = some b → body = b) := by
  refine ⟨_, errorBody env statusCode phrase, rfl, ?_, ?_⟩
  · intro h
    have hb : errorBody env statusCode phrase = fallbackBody statusCode phrase := by
      rcases h with h | ⟨t, h, hr⟩
      · exact errorBody_unavailable env _ _ h
      · exact errorBody_render_fails env _ _ t h hr
    rw [hb, fallbackBody_eq]
    refine ⟨?_, ?_, ?_⟩
    · have hne : toBytes "<html><body><h1>".toList ≠ [] := by decide
      intro hnil
      rw [List.append_assoc, List.append_assoc, List.append_assoc] at hnil
      exact hne (List.append_eq_nil.mp hnil).1
    · exact ⟨toBytes "<html><body><h1>".toList,
        toBytes " ".toList ++ toBytes phrase ++ toBytes "</h1></body></html>".toList,
        by simp [List.append_assoc]⟩
    · exact ⟨toBytes "<html><body><h1>".toList ++ toBytes (formatInt statusCode) ++
          toBytes " ".toList,
        toBytes "</h1></body></html>".toList, by simp [List.append_assoc]⟩
  · intro t b h hr
    exact errorBody_rendered env _ _ t b h hr

/-- C15: in both failure modes of the template, the body written by
`sendErrorPage` is exactly the bytes of
`<html><body><h1>` + decimal code + space + reason + `</h1></body></html>`;
when the template renders, the body is exactly the rendered bytes. -/
theorem sendErrorPage_fallback_body (env : Env) (statusCode : Int) (phrase : Str) :
    ∃ header body,
      sendErrorPage env statusCode phrase =
        [Event.parseFiles "templates/error.html".toList, Event.write header,
          Event.write body] ∧
      (env.parseFiles "templates/error.html".toList = none →
        body = toBytes ("<html><body><h1>".toList ++ formatInt statusCode ++ " ".toList ++
          phrase ++ "</h1></body></html>".toList)) ∧
      (∀ t, env.parseFiles "templates/error.html".toList = some t →
        t statusCode phrase = none →
        body = toBytes ("<html><body><h1>".toList ++ formatInt statusCode ++ " ".toList ++
          phrase ++ "</h1></body></html>".toList)) ∧
      (∀ t b, env.parseFiles "templates/error.html".toList = some t →
        t statusCode phrase = some b → body = b) := by
  refine ⟨_, errorBody env statusCode phrase, rfl, ?_, ?_, ?_⟩
  · intro h
    rw [errorBody_unavailable env _ _ h]; rfl
  · intro t h hr
    rw [errorBody_render_fails env _ _ t h hr]; rfl
  · intro t b h hr
    exact errorBody_rendered env _ _ t b h hr

theorem crlfLines_crlfFrame (lines : List Str) (h : ∀ l ∈ lines, '\r' ∉ l) :
    crlfLines (crlfFrame lines) = lines ++ [[], []] := by
  induction lines with
  | nil => decide
  | cons l t ih =>
    have : crlfFrame (l :: t) = l ++ '\r' :: '\n' :: crlfFrame t := rfl
    rw [this, crlfLines_append _ _ (h l (by simp)), ih (fun x hx => h x (by simp [hx]))]
    rfl

theorem crlf2_step (line s : Str) (hl : '\r' ∉ line)
    (hs : ∀ pre suf, s = pre ++ '\r' :: '\n' :: '\r' :: '\n' :: suf → suf = [])
    (hs0 : ∀ suf, s = '\r' :: '\n' :: suf → suf = []) :
    ∀ pre suf, line ++ '\r' :: '\n' :: s = pre ++ '\r' :: '\n' :: '\r' :: '\n' :: suf →
      suf = [] := by
  induction line with
  | nil =>
    intro pre suf h
    match pre, h with
    | [], h =>
      simp only [List.nil_append, List.cons.injEq, true_and] at h
      exact hs0 suf h
    | [a], h =>
      simp only [List.nil_append, List.singleton_append, List.cons.injEq] at h
      exact absurd h.2.1 (by decide)
    | a :: b :: pre', h =>
      simp only [List.nil_append, List.cons_append, List.cons.injEq] at h
      exact hs pre' suf h.2.2
  | cons c t ih =>
    intro pre suf h
    have hc : c ≠ '\r' := fun e => hl (by simp [e])
    have ht : '\r' ∉ t := fun e => hl (by simp [e])
    match pre, h with
    | [], h =>
      simp only [List.cons_append, List.nil_append, List.cons.injEq] at h
      exact absurd h.1 hc
    | a :: pre', h =>
      simp only [List.cons_append, List.cons.injEq] at h
      exact ih ht pre' suf h.2

/-- In a framed header whose lines are non-empty and free of CR, the
sequence CRLF CRLF occurs only at the very end. -/
theorem crlfFrame_terminator (lines : List Str) (h : ∀ l ∈ lines, l ≠ [] ∧ '\r' ∉ l) :
    (∀ pre suf, crlfFrame lines = pre ++ '\r' :: '\n' :: '\r' :: '\n' :: suf → suf = []) ∧
      (∀ suf, crlfFrame lines = '\r' :: '\n' :: suf → suf = []) := by
  induction lines with
  | nil =>
    constructor
    · intro pre suf hx
      have := congrArg List.length hx
      simp [crlfFrame] at this
      omega
    · intro suf hx
      simpa [crlfFrame] using hx.symm
  | cons l t ih =>
    obtain ⟨ih1, ih2⟩ := ih (fun x hx => h x (by simp [hx]))
    obtain ⟨hne, hcr⟩ := h l (by simp)
    have hf : crlfFrame (l :: t) = l ++ '\r' :: '\n' :: crlfFrame t := rfl
    rw [hf]
    constructor
    · exact crlf2_step l _ hcr ih1 ih2
    · intro suf hx
      cases l with
      | nil => exact absurd rfl hne
      | cons c l' =>
        simp only [List.cons_append, List.cons.injEq] at hx
        exact absurd hx.1 (fun e => hcr (by simp [e]))

theorem crlfFrame_suffix (lines : List Str) (h : lines ≠ []) :
    "\r\n\r\n".toList <:+ crlfFrame lines := by
  induction lines with
  | nil => exact absurd rfl h
  | cons l t ih =>
    have hf : crlfFrame (l :: t) = l ++ '\r' :: '\n' :: crlfFrame t := rfl
    rw [hf]
    cases t with
    | nil => exact ⟨l, rfl⟩
    | cons b t' =>
      obtain ⟨pre, hpre⟩ := ih (by simp)
      exact ⟨l ++ '\r' :: '\n' :: pre, by rw [← hpre]; simp⟩

theorem statusLine_no_cr (statusCode : Int) (phrase : Str)
    (hp : ∀ ch ∈ phrase, ch ≠ '\r' ∧ ch ≠ '\n') :
    ∀ ch ∈ "HTTP/1.1 ".toList ++ formatInt statusCode ++ " ".toList ++ phrase,
      ch ≠ '\r' ∧ ch ≠ '\n' := by
  intro ch hch
  simp only [List.mem_append] at hch
  rcases hch with ((h | h) | h) | h
  · revert ch; decide
  · exact formatInt_no_crlf _ ch h
  · revert ch; decide
  · exact hp ch h

theorem errorHeader_frame (statusCode : Int) (phrase : Str) (n : Int) :
    errorHeader statusCode phrase n =
      crlfFrame ["HTTP/1.1 ".toList ++ formatInt statusCode ++ " ".toList ++ phrase,
        "Content-Length: ".toList ++ formatInt n,
        "Content-Type: text/html".toList, "Connection: close".toList] := by
  simp [errorHeader, crlfFrame]

/-- C16, refuted at the reason phrase `x CRLF Server: y`: the header that
`sendErrorPage` writes then carries a `Server` line. -/
theorem sendErrorPage_injected_server_line :
    ¬ (∀ header body,
      sendErrorPage sampleEnv 400 "x\r\nServer: y".toList =
        [Event.parseFiles "templates/error.html".toList, Event.write (toBytes header),
          Event.write body] →
      hasServerLine header = false) := by
  intro h
  have := h ("HTTP/1.1 400 x\r\nServer: y\r\nContent-Length: 51\r\n" ++
    "Content-Type: text/html\r\nConnection: close\r\n\r\n").toList
    (fallbackBody 400 "x\r\nServer: y".toList) (by decide)
  exact absurd this (by decide)

/-- C16 as amended: `sendErrorPage` writes the header
`HTTP/1.1 <c> <r>`, `Content-Length: <n>`, `Content-Type: text/html`,
`Connection: close`, each ended by CRLF, and CRLF, then the body, where `n`
is the number of bytes of that body; when the reason phrase has no CR and no
LF the header carries no `Server` line. -/
theorem sendErrorPage_response (env : Env) (statusCode : Int) (phrase : Str) :
    ∃ header body,
      sendErrorPage env statusCode phrase =
        [Event.parseFiles "templates/error.html".toList, Event.write (toBytes header),
          Event.write body] ∧
      header = "HTTP/1.1 ".toList ++ formatInt statusCode ++ " ".toList ++ phrase ++
        "\r\n".toList ++ "Content-Length: ".toList ++ formatInt body.length ++
        "\r\n".toList ++ "Content-Type: text/html\r\n".toList ++
        "Connection: close\r\n".toList ++ "\r\n".toList ∧
      body = errorBody env statusCode phrase ∧
      ((∀ ch ∈ phrase, ch ≠ '\r' ∧ ch ≠ '\n') → hasServerLine header = false) := by
  refine ⟨_, errorBody env statusCode phrase, rfl, rfl, rfl, ?_⟩
  intro hp
  unfold hasServerLine
  rw [errorHeader_frame, crlfLines_crlfFrame]
  · rfl
  · intro l hl
    simp only [List.mem_cons, List.mem_singleton, List.not_mem_nil, or_false] at hl
    rcases hl with rfl | rfl | rfl | rfl
    · exact fun hm => (statusLine_no_cr _ _ hp _ hm).1 rfl
    · intro hm
      rcases List.mem_append.mp hm with hm | hm
      · revert hm; decide
      · exact (formatInt_no_crlf _ _ hm).1 rfl
    · decide
    · decide

theorem CreateResponseHeader_frame (statusCode : Int) (phrase contentType : Str) (n : Int) :
    CreateResponseHeader statusCode phrase contentType n =
      crlfFrame ["HTTP/1.1 ".toList ++ formatInt statusCode ++ " ".toList ++ phrase,
        "Server: Very Simple Web Server".toList,
        "Content-Length: ".toList ++ formatInt n,
        "Content-Type: ".toList ++ contentType, "Connection: close".toList] := by
  simp [CreateResponseHeader, crlfFrame]

/-- C17: for a reason phrase and a content type without CR or LF,
`CreateResponseHeader` returns the five lines `HTTP/1.1 <code> <reason>`,
`Server: Very Simple Web Server`, `Content-Length: <bodyLength>`,
`Content-Type: <contentType>`, `Connection: close`, each ended by CRLF, then
one empty line; no line holds a CR or LF, and CRLF CRLF occurs exactly once,
at the very end. -/
theorem CreateResponseHeader_five_lines (statusCode contentLength : Int)
    (phrase contentType : Str)
    (hp : ∀ ch ∈ phrase, ch ≠ '\r' ∧ ch ≠ '\n')
    (hc : ∀ ch ∈ contentType, ch ≠ '\r' ∧ ch ≠ '\n') :
    crlfLines (CreateResponseHeader statusCode phrase contentType contentLength) =
        ["HTTP/1.1 ".toList ++ formatInt statusCode ++ " ".toList ++ phrase,
          "Server: Very Simple Web Server".toList,
          "Content-Length: ".toList ++ formatInt contentLength,
          "Content-Type: ".toList ++ contentType, "Connection: close".toList, [], []] ∧
      (∀ line ∈ (crlfLines (CreateResponseHeader statusCode phrase contentType
          contentLength)), ∀ ch ∈ line, ch ≠ '\r' ∧ ch ≠ '\n') ∧
      "\r\n\r\n".toList <:+ CreateResponseHeader statusCode phrase contentType contentLength ∧
      (∀ pre suf, CreateResponseHeader statusCode phrase contentType contentLength =
        pre ++ "\r\n\r\n".toList ++ suf → suf = []) := by
  have hlines : ∀ l ∈ ["HTTP/1.1 ".toList ++ formatInt statusCode ++ " ".toList ++ phrase,
      "Server: Very Simple Web Server".toList,
      "Content-Length: ".toList ++ formatInt contentLength,
      "Content-Type: ".toList ++ contentType, "Connection: close".toList],
      l ≠ [] ∧ ∀ ch ∈ l, ch ≠ '\r' ∧ ch ≠ '\n' := by
    intro l hl
    simp only [List.mem_cons, List.mem_singleton, List.not_mem_nil, or_false] at hl
    rcases hl with rfl | rfl | rfl | rfl | rfl
    · exact ⟨by simp, statusLine_no_cr _ _ hp⟩
    · exact ⟨by decide, by decide⟩
    · refine ⟨by simp, ?_⟩
      intro ch hm
      rcases List.mem_append.mp hm with hm | hm
      · exact (by decide : ∀ ch ∈ "Content-Length: ".toList, ch ≠ '\r' ∧ ch ≠ '\n') ch hm
      · exact formatInt_no_crlf _ _ hm
    · refine ⟨by simp, ?_⟩
      intro ch hm
      rcases List.mem_append.mp hm with hm | hm
      · exact (by decide : ∀ ch ∈ "Content-Type: ".toList, ch ≠ '\r' ∧ ch ≠ '\n') ch hm
      · exact hc _ hm
    · exact ⟨by decide, by decide⟩
  have hcr : ∀ l ∈ ["HTTP/1.1 ".toList ++ formatInt statusCode ++ " ".toList ++ phrase,
      "Server: Very Simple Web Server".toList,
      "Content-Length: ".toList ++ formatInt contentLength,
      "Content-Type: ".toList ++ contentType, "Connection: close".toList], '\r' ∉ l :=
    fun l hl hm => ((hlines l hl).2 _ hm).1 rfl
  have hsplit := crlfLines_crlfFrame _ hcr
  rw [CreateResponseHeader_frame]
  refine ⟨hsplit, ?_, crlfFrame_suffix _ (by simp), ?_⟩
  · rw [hsplit]
    intro line hl
    rcases List.mem_append.mp hl with hl | hl
    · exact (hlines line hl).2
    · simp only [List.mem_cons, List.mem_singleton, List.not_mem_nil, or_false, or_self] at hl
      subst hl
      simp
  · intro pre suf hx
    exact (crlfFrame_terminator _ (fun l hl => ⟨(hlines l hl).1, hcr l hl⟩)).1 pre suf
      (by rw [hx]; simp)

/-- Witness of C17 at the header of a successful HTML response of three
bytes. -/
theorem CreateResponseHeader_five_lines_witness :
    crlfLines (CreateResponseHeader 200 "OK".toList "text/html".toList 3) =
        ["HTTP/1.1 ".toList ++ formatInt 200 ++ " ".toList ++ "OK".toList,
          "Server: Very Simple Web Server".toList,
          "Content-Length: ".toList ++ formatInt 3,
          "Content-Type: ".toList ++ "text/html".toList, "Connection: close".toList,
          [], []] ∧
      (∀ line ∈ (crlfLines (CreateResponseHeader 200 "OK".toList "text/html".toList 3)),
        ∀ ch ∈ line, ch ≠ '\r' ∧ ch ≠ '\n') ∧
      "\r\n\r\n".toList <:+ CreateResponseHeader 200 "OK".toList "text/html".toList 3 ∧
      (∀ pre suf, CreateResponseHeader 200 "OK".toList "text/html".toList 3 =
        pre ++ "\r\n\r\n".toList ++ suf → suf = []) :=
  CreateResponseHeader_five_lines 200 3 "OK".toList "text/html".toList
    (by decide) (by decide)

/-! ## `GetContentType` -/

theorem extLoop_dot (rb rest : Str) (hdot : '.' ∉ rb) (hsep : '/' ∉ rb) :
    ∀ acc, extLoop (rb ++ '.' :: rest) acc = '.' :: (rb.reverse ++ acc) := by
  induction rb with
  | nil => intro acc; simp [extLoop]
  | cons c t ih =>
    intro acc
    have hc1 : c ≠ '/' := fun e => hsep (by simp [e])
    have hc2 : c ≠ '.' := fun e => hdot (by simp [e])
    rw [List.cons_append, extLoop, if_neg hc1, if_neg hc2,
      ih (fun e => hdot (by simp [e])) (fun e => hsep (by simp [e]))]
    simp

theorem extLoop_none (rb rest : Str) (hdot : '.' ∉ rb) (hsep : '/' ∉ rb)
    (hrest : rest = [] ∨ rest.head? = some '/') :
    ∀ acc, extLoop (rb ++ rest) acc = [] := by
  induction rb with
  | nil =>
    intro acc
    rcases hrest with rfl | h
    · rfl
    · cases rest with
      | nil => rfl
      | cons d r =>
        simp at h; subst h
        simp [extLoop]
  | cons c t ih =>
    intro acc
    have hc1 : c ≠ '/' := fun e => hsep (by simp [e])
    have hc2 : c ≠ '.' := fun e => hdot (by simp [e])
    rw [List.cons_append, extLoop, if_neg hc1, if_neg hc2,
      ih (fun e => hdot (by simp [e])) (fun e => hsep (by simp [e]))]

theorem suffixFromLastDot_none (e : Str) (h : '.' ∉ e) : suffixFromLastDot e = [] := by
  induction e with
  | nil => rfl
  | cons c t ih =>
    have hc : c ≠ '.' := fun e => h (by simp [e])
    rw [suffixFromLastDot, ih (fun e => h (by simp [e]))]
    simp [hc]

theorem suffixFromLastDot_dot (a b : Str) (h : '.' ∉ b) :
    suffixFromLastDot (a ++ '.' :: b) = '.' :: b := by
  induction a with
  | nil =>
    rw [List.nil_append, suffixFromLastDot, suffixFromLastDot_none b h]
    simp
  | cons c t ih =>
    rw [List.cons_append, suffixFromLastDot, ih]

/-- A path is its final element after a prefix that is empty or ends with a
separator. -/
theorem path_final_element (p : Str) :
    ∃ pre, p = pre ++ (segments p).getLastD [] ∧ '/' ∉ (segments p).getLastD [] ∧
      (pre.reverse = [] ∨ pre.reverse.head? = some '/') := by
  have hne := segments_ne_nil p
  have hjoin := segments_join p
  have hno := segments_no_sep p
  obtain ⟨ss, e, hse⟩ : ∃ ss e, segments p = ss ++ [e] :=
    ⟨(segments p).dropLast, (segments p).getLast hne,
      (List.dropLast_append_getLast hne).symm⟩
  rw [hse] at hjoin hno
  have hlast : (segments p).getLastD [] = e := by rw [hse]; simp
  rw [hlast]
  have he : '/' ∉ e := hno e (by simp)
  by_cases hss : ss = []
  · subst hss
    exact ⟨[], by simpa [strJoin] using hjoin.symm, he, Or.inl rfl⟩
  · rw [strJoin_snoc _ _ _ hss] at hjoin
    exact ⟨strJoin ss ['/'] ++ ['/'], hjoin.symm, he, Or.inr (by simp)⟩

/-- The loop of `filepath.Ext` finds the suffix at the last `'.'` of the
final element. -/
theorem Ext_eq_extension (p : Str) : Ext p = extension p := by
  obtain ⟨pre, hp, he, hpre⟩ := path_final_element p
  unfold extension Ext
  generalize (segments p).getLastD [] = e at hp he
  have hrev : p.reverse = e.reverse ++ pre.reverse := by rw [hp]; simp
  rw [hrev]
  have hsep : '/' ∉ e.reverse := by simpa using he
  by_cases hdot : '.' ∈ e
  · obtain ⟨rb, ra, hsplit, hrb⟩ := List.eq_append_cons_of_mem (List.mem_reverse.mpr hdot)
    have hrbsep : '/' ∉ rb := fun h => hsep (by rw [hsplit]; simp [h])
    have hE : e = ra.reverse ++ '.' :: rb.reverse := by
      have := congrArg List.reverse hsplit
      simpa using this
    rw [hsplit, List.append_assoc, List.cons_append, extLoop_dot rb _ hrb hrbsep, hE,
      suffixFromLastDot_dot _ _ (by simpa using hrb)]
    simp
  · rw [extLoop_none e.reverse _ (by simpa using hdot) hsep hpre,
      suffixFromLastDot_none e hdot]

theorem switch_eq_lookup (ext : Str) :
    (if ext = ".html".toList ∨ ext = ".htm".toList then "text/html".toList
      else if ext = ".jpg".toList ∨ ext = ".jpeg".toList then "image/jpeg".toList
      else if ext = ".png".toList then "image/png".toList
      else if ext = ".gif".toList then "image/gif".toList
      else if ext = ".mp3".toList then "audio/mpeg".toList
      else if ext = ".wav".toList then "audio/wav".toList
      else if ext = ".midi".toList ∨ ext = ".mid".toList then "audio/midi".toList
      else if ext = ".css".toList then "text/css".toList
      else if ext = ".js".toList then "application/javascript".toList
      else if ext = ".txt".toList then "text/plain".toList
      else "application/octet-stream".toList) = lookupType ext := by
  unfold lookupType mimeTable
  simp only [List.lookup]
  split_ifs with h1 h2 h3 h4 h5 h6 h7 h8 h9 h10
  · rcases h1 with h | h <;> subst h <;> rfl
  · rcases h2 with h | h <;> subst h <;> rfl
  · subst h3; rfl
  · subst h4; rfl
  · subst h5; rfl
  · subst h6; rfl
  · rcases h7 with h | h <;> subst h <;> rfl
  · subst h8; rfl
  · subst h9; rfl
  · subst h10; rfl
  · push_neg at h1 h2 h7
    have hb : ∀ k : Str, ext ≠ k → (ext == k) = false := fun k hk => by simpa using hk
    simp only [hb _ h1.1, hb _ h1.2, hb _ h2.1, hb _ h2.2, hb _ h3, hb _ h4, hb _ h5,
      hb _ h6, hb _ h7.1, hb _ h7.2, hb _ h8, hb _ h9, hb _ h10]
    rfl

theorem GetContentType_eq_lookup (table : Char → Char) (path : Str) :
    GetContentType table path = lookupType (ToLower table (extension path)) := by
  unfold GetContentType
  simp only
  rw [switch_eq_lookup, Ext_eq_extension]

/-- C18: `GetContentType` is a total function and is the table lookup on the
lower-cased extension of the final element of the path, with
`application/octet-stream` for every extension that is not in the table and
for a path without extension, as for `archive.tar.gz`, `README` and
`dir.html/file`. -/
theorem GetContentType_table_lookup (table : Char → Char) (path : Str) :
    GetContentType table path = lookupType (ToLower table (extension path)) ∧
      GetContentType table "archive.tar.gz".toList = "application/octet-stream".toList ∧
      GetContentType table "README".toList = "application/octet-stream".toList ∧
      GetContentType table "dir.html/file".toList = "application/octet-stream".toList := by
  refine ⟨GetContentType_eq_lookup table path, ?_, ?_, ?_⟩
  · have he : extension "archive.tar.gz".toList = ".gz".toList := by decide
    have hl : ToLower table ".gz".toList = ".gz".toList := by simp [ToLower, lowerRune]
    rw [GetContentType_eq_lookup, he, hl]
    decide
  · have he : extension "README".toList = [] := by decide
    rw [GetContentType_eq_lookup, he]
    rfl
  · have he : extension "dir.html/file".toList = [] := by decide
    rw [GetContentType_eq_lookup, he]
    rfl

theorem asciiLower_facts :
    ∀ n, n < 128 →
      (Char.ofNat n).toLower.toNat < 128 ∧
      (Char.ofNat n).toLower.toLower = (Char.ofNat n).toLower ∧
      ((Char.ofNat n).toLower = '/' ↔ Char.ofNat n = '/') ∧
      ((Char.ofNat n).toLower = '.' ↔ Char.ofNat n = '.') := by
  decide

theorem ascii_toLower (c : Char) (h : c.toNat < 128) :
    c.toLower.toNat < 128 ∧ c.toLower.toLower = c.toLower ∧
      (c.toLower = '/' ↔ c = '/') ∧ (c.toLower = '.' ↔ c = '.') := by
  have := asciiLower_facts c.toNat h
  rwa [Char.ofNat_toNat] at this

theorem lowerRune_idem (table : Char → Char) (h : CaseTable table) (c : Char) :
    lowerRune table (lowerRune table c) = lowerRune table c := by
  by_cases hc : c.toNat < 128
  · obtain ⟨h1, h2, _, _⟩ := ascii_toLower c hc
    simp only [lowerRune, hc, if_true, h1, h2]
  · have hl : lowerRune table c = table c := by simp only [lowerRune, hc, if_false]
    rw [hl]
    exact (h c (by omega)).2.2

theorem lowerRune_sep (table : Char → Char) (h : CaseTable table) (c : Char) :
    (lowerRune table c = '/' ↔ c = '/') ∧ (lowerRune table c = '.' ↔ c = '.') := by
  by_cases hc : c.toNat < 128
  · obtain ⟨_, _, h3, h4⟩ := ascii_toLower c hc
    simp only [lowerRune, hc, if_true]
    exact ⟨h3, h4⟩
  · have hl : lowerRune table c = table c := by simp only [lowerRune, hc, if_false]
    obtain ⟨t1, t2, _⟩ := h c (by omega)
    rw [hl]
    constructor
    · exact ⟨fun e => absurd e t1, fun e => absurd (e ▸ (by decide : '/'.toNat < 128)) hc⟩
    · exact ⟨fun e => absurd e t2, fun e => absurd (e ▸ (by decide : '.'.toNat < 128)) hc⟩

theorem extLoop_map (f : Char → Char)
    (hf : ∀ c, (f c = '/' ↔ c = '/') ∧ (f c = '.' ↔ c = '.')) (l : Str) :
    ∀ acc, extLoop (l.map f) (acc.map f) = (extLoop l acc).map f := by
  induction l with
  | nil => intro acc; rfl
  | cons c t ih =>
    intro acc
    rw [List.map_cons, extLoop, extLoop]
    by_cases h1 : c = '/'
    · rw [if_pos ((hf c).1.mpr h1), if_pos h1]; rfl
    · rw [if_neg (fun e => h1 ((hf c).1.mp e)), if_neg h1]
      by_cases h2 : c = '.'
      · rw [if_pos ((hf c).2.mpr h2), if_pos h2]
        subst h2
        simp [(hf '.').2.mpr rfl]
      · rw [if_neg (fun e => h2 ((hf c).2.mp e)), if_neg h2, ← ih]
        rfl

theorem Ext_ToLower (table : Char → Char) (h : CaseTable table) (p : Str) :
    Ext (ToLower table p) = ToLower table (Ext p) := by
  unfold Ext ToLower
  rw [← List.map_reverse]
  exact extLoop_map _ (lowerRune_sep table h) p.reverse []

theorem ToLower_idem (table : Char → Char) (h : CaseTable table) (s : Str) :
    ToLower table (ToLower table s) = ToLower table s := by
  unfold ToLower
  rw [List.map_map]
  exact List.map_congr_left (fun c _ => lowerRune_idem table h c)

/-- The content type depends on the lower-cased path alone. -/
theorem GetContentType_of_lower (table : Char → Char) (h : CaseTable table) (p : Str) :
    GetContentType table p = lookupType (Ext (ToLower table p)) := by
  rw [GetContentType_eq_lookup, ← Ext_eq_extension, Ext_ToLower table h]

theorem caseTable_id : CaseTable id := by
  intro c hc
  refine ⟨?_, ?_, ?_⟩
  · intro e
    have e' : c = '/' := e
    rw [e'] at hc
    exact absurd hc (by decide)
  · intro e
    have e' : c = '.' := e
    rw [e'] at hc
    exact absurd hc (by decide)
  · have : ¬ c.toNat < 128 := by omega
    simp [lowerRune, this]

/-- C19: `GetContentType` is case-insensitive.  The content type of a path is
that of its lower-cased form, two paths with the same lower-cased form have
the same content type, and `a.JPG` and `a.jpg` both give `image/jpeg`. -/
theorem GetContentType_case_insensitive (table : Char → Char) (h : CaseTable table)
    (p : Str) :
    GetContentType table p = GetContentType table (ToLower table p) ∧
      (∀ p', ToLower table p' = ToLower table p →
        GetContentType table p' = GetContentType table p) ∧
      GetContentType table "a.JPG".toList = GetContentType table "a.jpg".toList ∧
      GetContentType table "a.jpg".toList = "image/jpeg".toList := by
  have hjpg : ToLower table "a.JPG".toList = ToLower table "a.jpg".toList := by
    simp [ToLower, lowerRune]
  have hlow : ToLower table "a.jpg".toList = "a.jpg".toList := by
    simp [ToLower, lowerRune]
  refine ⟨?_, ?_, ?_, ?_⟩
  · rw [GetContentType_of_lower table h p, GetContentType_of_lower table h (ToLower table p),
      ToLower_idem table h]
  · intro p' hp'
    rw [GetContentType_of_lower table h p', GetContentType_of_lower table h p, hp']
  · rw [GetContentType_of_lower table h, GetContentType_of_lower table h "a.jpg".toList, hjpg]
  · rw [GetContentType_of_lower table h, hlow]
    decide

/-- Witness of C19 at the path `a.JPG`, with a case table that leaves every
character outside ASCII alone. -/
theorem GetContentType_case_insensitive_witness :
    GetContentType id "a.JPG".toList = GetContentType id (ToLower id "a.JPG".toList) ∧
      (∀ p', ToLower id p' = ToLower id "a.JPG".toList →
        GetContentType id p' = GetContentType id "a.JPG".toList) ∧
      GetContentType id "a.JPG".toList = GetContentType id "a.jpg".toList ∧
      GetContentType id "a.jpg".toList = "image/jpeg".toList :=
  GetContentType_case_insensitive id caseTable_id "a.JPG".toList

/-! ## The `empty request` branch of `ParseRequest` -/

/-- C20: `ParseRequest` never returns the `empty request` error.  Splitting
on CRLF yields at least one line, the empty input is reported as
`invalid request line`, and so is every input whose first line is empty. -/
theorem ParseRequest_never_empty_request (s : Str) :
    ParseRequest s ≠ some (ParseResult.err "empty request") ∧
      (∃ line rest, Split s "\r\n".toList = some (line :: rest)) ∧
      ParseRequest [] = some (ParseResult.err "invalid request line") ∧
      (firstLine s = [] → ParseRequest s = some (ParseResult.err "invalid request line")) := by
  refine ⟨?_, ?_, by decide, ?_⟩
  · rw [ParseRequest_eq]
    split
    · simp
    · intro h
      simp at h
  · obtain ⟨rest, hl⟩ := crlfLines_head s
    exact ⟨_, rest, by rw [Split_crlf, hl]⟩
  · intro h
    rw [ParseRequest_eq, h]
    rfl

end VSWS
